import Mathlib

/-!
Verification development for the `layered_config_tree` repository.

The repository's core consists of two cooperating classes, `ConfigNode`
(the per-key value cell, holding at most one `(source, value)` pair per
named layer) and `LayeredConfigTree` (a recursive container of nodes and
subtrees sharing one ordered list of layer names), together with an
exception hierarchy in `exceptions.py`.

The core module itself is not present in the examined sources; only its
exception hierarchy and its test suite are.  The definitions below for
`ConfigNode` and `LayeredConfigTree` are therefore modelled from the
specification, and kept consistent with the behaviour pinned down by the
in-repository test suite (`tests/test_basic_functionality.py`) wherever
the two speak to the same point.  The exception-object definitions are
translated directly from `src/layered_config_tree/exceptions.py`.

Conventions of the embedding:
* Python exceptions become an explicit `ConfigError` sum type; fallible
  operations return `Except ConfigError _`.
* Mutation becomes explicit state passing: operations return the updated
  structure, and an operation that raises returns `.error` and the caller
  keeps the unmodified structure.
* Leaf values are represented as `String` (the tests exercise string
  payloads; the tree treats values as opaque).
* The spec's error names map onto the code's exception classes:
  `FrozenError` and `TypeMismatchError` are plain `ConfigurationError`s,
  `MissingValueError` and `UnknownLayerError` are `ConfigurationKeyError`s,
  and `DuplicateValueError` is `DuplicatedConfigurationError`.
-/

/-- The configuration-error family, as the information supplied at each
raise site.  `duplicatedConfigurationError` carries the message, the cell
name, the offending layer, and the originally stored source and value
(per the docstring of `DuplicatedConfigurationError` in `exceptions.py`:
"The original source of the configuration value. / The original
configuration value."). -/
inductive ConfigError where
  | configurationError (message : String)
  | configurationKeyError (message : String)
  | duplicatedConfigurationError (message : String) (name : String)
      (layer : Option String) (source : Option String) (value : String)
deriving Repr, DecidableEq

/-- Modelled from the spec: the per-key value-resolution unit
(`ConfigNode` in the tests).  Holds, for a single logical configuration
key, at most one `(source, value)` pair per named layer, the shared layer
ordering (later position = higher precedence), an `accessed` flag and a
`frozen` flag. -/
structure ConfigNode where
  layers : List String
  name : String
  values : List (String × Option String × String)
  accessed : Bool
  frozen : Bool
deriving Repr, DecidableEq

/-- Association-list lookup of a layer in a cell's stored values. -/
def lookup_layer : List (String × Option String × String) → String →
    Option (Option String × String)
  | [], _ => none
  | (k, sv) :: rest, l => if k = l then some sv else lookup_layer rest l

/-- The default layer a write targets when no layer is named: the single
highest-precedence layer, i.e. the last name in the shared ordering. -/
def default_layer (layers : List String) : String :=
  (layers.getLast?).getD ""

/-- The layer a write actually targets: the named one, or the default. -/
def target_layer (layers : List String) (layer : Option String) : String :=
  layer.getD (default_layer layers)

/-- A fresh, empty cell. -/
def ConfigNode.new (layers : List String) (name : String) : ConfigNode :=
  ⟨layers, name, [], false, false⟩

/-- Modelled from the spec: `ConfigNode.update(value, layer, source)`.
Fails with a frozen `ConfigurationError` if the cell is frozen; resolves
the target layer (named, or the highest-precedence one); fails with
`ConfigurationKeyError` if the named layer is absent from the shared
ordering; fails with `DuplicatedConfigurationError` if the target layer
already holds a value (carrying the layer and the originally stored
source and value); otherwise records `(source, value)` at the target
layer. -/
def ConfigNode.update (n : ConfigNode) (value : String) (layer : Option String)
    (source : Option String) : Except ConfigError ConfigNode :=
  if n.frozen then
    .error (.configurationError
      ("Frozen ConfigNode " ++ n.name ++ " does not support update."))
  else
    let l := target_layer n.layers layer
    if l ∈ n.layers then
      match lookup_layer n.values l with
      | some (s0, v0) =>
          .error (.duplicatedConfigurationError
            ("Value for " ++ n.name ++ " at layer " ++ l ++ " already exists.")
            n.name (some l) s0 v0)
      | none => .ok { n with values := n.values ++ [(l, (source, value))] }
    else
      .error (.configurationKeyError
        ("No layer " ++ l ++ " in ConfigNode " ++ n.name ++ "."))

/-- Stateful wrapper for `ConfigNode.update`: returns the outcome together
with the post-state of the cell, which is unchanged when the update
raises. -/
def ConfigNode.update_state (n : ConfigNode) (value : String)
    (layer : Option String) (source : Option String) :
    Except ConfigError Unit × ConfigNode :=
  match n.update value layer source with
  | .ok n' => (.ok (), n')
  | .error e => (.error e, n)

/-- Resolution of the effective value with no explicit layer: scan the
shared ordering from highest to lowest precedence and return the first
populated layer's `(source, value)` pair. -/
def resolve_default (layers : List String)
    (values : List (String × Option String × String)) :
    Option (Option String × String) :=
  match layers with
  | [] => none
  | l :: rest =>
      match resolve_default rest values with
      | some sv => some sv
      | none => lookup_layer values l

/-- Modelled from the spec: `ConfigNode._get_value_with_source(layer)`.
With an explicit layer, returns exactly that layer's `(source, value)`
pair or fails with `ConfigurationKeyError` if that layer is unset; with
no layer, returns the highest-precedence populated layer's pair or fails
with `ConfigurationKeyError` if the cell is empty.  Pure: does not touch
the `accessed` flag (the tests assert `not full_node.accessed` after
calling it). -/
def ConfigNode.get_value_with_source (n : ConfigNode) (layer : Option String) :
    Except ConfigError (Option String × String) :=
  match layer with
  | some l =>
      match lookup_layer n.values l with
      | some sv => .ok sv
      | none => .error (.configurationKeyError
          ("No value at layer " ++ l ++ " for " ++ n.name ++ "."))
  | none =>
      match resolve_default n.layers n.values with
      | some sv => .ok sv
      | none => .error (.configurationKeyError
          ("No value stored in " ++ n.name ++ "."))

/-- Modelled from the spec: `ConfigNode.get_value(layer)`.  Resolves via
`get_value_with_source` and, only on success, marks the cell accessed;
on failure the cell is returned unchanged. -/
def ConfigNode.get_value (n : ConfigNode) (layer : Option String) :
    Except ConfigError String × ConfigNode :=
  match n.get_value_with_source layer with
  | .ok sv => (.ok sv.2, { n with accessed := true })
  | .error e => (.error e, n)

/-- One entry of a cell's provenance record. -/
structure MetadataEntry where
  layer : String
  source : Option String
  value : String
deriving Repr, DecidableEq

/-- Modelled from the spec: the `metadata` property — one
`{layer, source, value}` entry per populated layer, in the order of the
shared layer ordering (ascending precedence). -/
def ConfigNode.metadata (n : ConfigNode) : List MetadataEntry :=
  n.layers.filterMap fun l =>
    (lookup_layer n.values l).map fun sv => ⟨l, sv.1, sv.2⟩

/-- Modelled from the spec: `ConfigNode.freeze()` marks the cell
immutable. -/
def ConfigNode.freeze (n : ConfigNode) : ConfigNode :=
  { n with frozen := true }

/-- One write against a single cell, for reasoning about write sequences:
an optional explicit layer, a source label, and the value. -/
structure Write where
  layer : Option String
  source : Option String
  value : String
deriving Repr, DecidableEq

/-- The layer a write targets given the shared ordering. -/
def Write.target (layers : List String) (w : Write) : String :=
  target_layer layers w.layer

/-- Apply a sequence of writes to a cell, stopping at the first error. -/
def ConfigNode.apply_writes (n : ConfigNode) : List Write →
    Except ConfigError ConfigNode
  | [] => .ok n
  | w :: ws =>
      match n.update w.value w.layer w.source with
      | .ok n' => n'.apply_writes ws
      | .error e => .error e

/-- The populated layers of a cell, in ascending precedence order. -/
def ConfigNode.populated_layers (n : ConfigNode) : List String :=
  n.layers.filter fun l => (lookup_layer n.values l).isSome

/-! Exception objects, translated from
`src/layered_config_tree/exceptions.py`.  `ConfigurationError.__init__`
receives `(message, value_name)` and calls `super().__init__(message)`,
so the constructed object's state is exactly `args = (message,)`;
`value_name` is not stored anywhere.  `DuplicatedConfigurationError`
additionally stores `layer`, `source` and `value` as attributes before
delegating to `ConfigurationError.__init__`. -/

/-- The observable state of a constructed `ConfigurationError` (or
`ConfigurationKeyError`) object: the `args` tuple set by
`Exception.__init__`. -/
structure ConfigurationErrorObj where
  args : List String
deriving Repr, DecidableEq

/-- Translated from `ConfigurationError.__init__(self, message, value_name)`:
it calls `super().__init__(message)` and does nothing else, so the
object's state is `args = (message,)`. -/
def mk_configuration_error (message : String) (value_name : Option String) :
    ConfigurationErrorObj :=
  match value_name with
  | _ => ⟨[message]⟩

/-- The observable state of a constructed `DuplicatedConfigurationError`
object: the base `args` tuple plus the `layer`, `source` and `value`
attributes. -/
structure DuplicatedConfigurationErrorObj where
  args : List String
  layer : Option String
  source : Option String
  value : String
deriving Repr, DecidableEq

/-- Translated from `DuplicatedConfigurationError.__init__(self, message,
name, layer, source, value)`: stores `layer`, `source`, `value` and then
calls `ConfigurationError.__init__(message, name)`, which keeps only the
message. -/
def mk_duplicated_configuration_error (message : String) (name : String)
    (layer : Option String) (source : Option String) (value : String) :
    DuplicatedConfigurationErrorObj :=
  match name with
  | _ => ⟨[message], layer, source, value⟩

/-- Decidable equality for `Except`, so that concrete runs of the
embedded operations can be checked by `decide`. -/
instance {ε α : Type} [DecidableEq ε] [DecidableEq α] :
    DecidableEq (Except ε α) := fun a b =>
  match a, b with
  | .ok x, .ok y =>
      if h : x = y then .isTrue (by rw [h]) else .isFalse (by simp [h])
  | .error e, .error f =>
      if h : e = f then .isTrue (by rw [h]) else .isFalse (by simp [h])
  | .ok _, .error _ => .isFalse (by simp)
  | .error _, .ok _ => .isFalse (by simp)

/-! The recursive tree.  A `LayeredConfigTree` holds the shared layer
ordering, a diagnostic name, a frozen flag, and an insertion-ordered
mapping from child key to either a leaf `ConfigNode` or a nested
subtree.  The children mapping is represented as its own cons-list type
so that all tree operations are plain structural recursions. -/

mutual
inductive LayeredConfigTree where
  | mk (layers : List String) (name : String) (frozen : Bool)
      (children : Children)
deriving Repr, DecidableEq
inductive Children where
  | nil
  | cons (key : String) (child : TreeChild) (rest : Children)
deriving Repr, DecidableEq
inductive TreeChild where
  | node (n : ConfigNode)
  | tree (t : LayeredConfigTree)
deriving Repr, DecidableEq
end

def LayeredConfigTree.layers : LayeredConfigTree → List String
  | .mk ls _ _ _ => ls

def LayeredConfigTree.name : LayeredConfigTree → String
  | .mk _ nm _ _ => nm

def LayeredConfigTree.frozen : LayeredConfigTree → Bool
  | .mk _ _ fz _ => fz

def LayeredConfigTree.children : LayeredConfigTree → Children
  | .mk _ _ _ cs => cs

/-- First-match lookup of a child key, mirroring Python dict lookup. -/
def Children.lookup : Children → String → Option TreeChild
  | .nil, _ => none
  | .cons k c rest, key => if k = key then some c else rest.lookup key

/-- Dict-style assignment: replace the first entry with the given key in
place, or append a new entry at the end. -/
def Children.store : Children → String → TreeChild → Children
  | .nil, key, c => .cons key c .nil
  | .cons k c0 rest, key, c =>
      if k = key then .cons k c rest else .cons k c0 (rest.store key c)

/-- The keys of the children mapping, in insertion order. -/
def Children.keys : Children → List String
  | .nil => []
  | .cons k _ rest => k :: rest.keys

/-- Replace or create the child stored under `key`. -/
def LayeredConfigTree.with_child (t : LayeredConfigTree) (key : String)
    (c : TreeChild) : LayeredConfigTree :=
  .mk t.layers t.name t.frozen (t.children.store key c)

/-- Diagnostic name of a child, the parent's name dot-extended. -/
def child_name (parent key : String) : String :=
  if parent = "" then key else parent ++ "." ++ key

/-- Modelled from the spec: tree construction without data.  Establishes
the shared layer ordering, defaulting to the single layer `"base"` when
none is given. -/
def LayeredConfigTree.new (layers : List String) (name : String) :
    LayeredConfigTree :=
  .mk (if layers.isEmpty then ["base"] else layers) name false .nil

/-! Raw input to `update` after coercion: a nested mapping whose leaves
are scalar values.  Represented as a mutual pair of types so that tree
updates are structural recursions over the raw input. -/
mutual
inductive RawValue where
  | scalar (s : String)
  | map (m : RawMap)
deriving Repr, DecidableEq
inductive RawMap where
  | nil
  | cons (key : String) (v : RawValue) (rest : RawMap)
deriving Repr, DecidableEq
end

/-- Modelled from the spec: `LayeredConfigTree._set_with_metadata(name,
value, layer, source)`.  Creates the child cell on first sight, then
delegates to the cell's `update`; a subtree already stored under the key
is a kind conflict. -/
def LayeredConfigTree.set_with_metadata (t : LayeredConfigTree) (key : String)
    (value : String) (layer source : Option String) :
    Except ConfigError LayeredConfigTree :=
  match t.children.lookup key with
  | some (.node n) =>
      (n.update value layer source).map fun n' => t.with_child key (.node n')
  | some (.tree _) =>
      .error (.configurationError
        ("Can't set a value over the subtree at " ++ key ++ "."))
  | none =>
      ((ConfigNode.new t.layers (child_name t.name key)).update
          value layer source).map
        fun n' => t.with_child key (.node n')

mutual
/-- Modelled from the spec: the per-entry loop of
`LayeredConfigTree.update`, walking the coerced mapping key by key. -/
def LayeredConfigTree.update_entries (t : LayeredConfigTree) (m : RawMap)
    (layer source : Option String) : Except ConfigError LayeredConfigTree :=
  match m with
  | .nil => .ok t
  | .cons k v rest =>
      match t.update_one k v layer source with
      | .ok t' => t'.update_entries rest layer source
      | .error e => .error e
termination_by structural m
/-- Modelled from the spec: updating a single key of a tree.  A scalar
value goes through `set_with_metadata`; a nested mapping recursively
updates (or creates) the child subtree under the same layer and source,
and conflicts with an existing leaf cell under that key. -/
def LayeredConfigTree.update_one (t : LayeredConfigTree) (key : String)
    (v : RawValue) (layer source : Option String) :
    Except ConfigError LayeredConfigTree :=
  match v with
  | .scalar s => t.set_with_metadata key s layer source
  | .map m =>
      match t.children.lookup key with
      | some (.node _) =>
          .error (.configurationError
            ("Can't update the value at " ++ key ++ " with a mapping."))
      | some (.tree sub) =>
          if sub.frozen then
            .error (.configurationError
              ("Frozen LayeredConfigTree " ++ sub.name ++
                " does not support update."))
          else
            (sub.update_entries m layer source).map
              fun sub' => t.with_child key (.tree sub')
      | none =>
          ((LayeredConfigTree.mk t.layers (child_name t.name key) false
              .nil).update_entries m layer source).map
            fun sub' => t.with_child key (.tree sub')
termination_by structural v
end

/-- Modelled from the spec: `LayeredConfigTree.update(data, layer,
source)` on an already-coerced mapping.  Fails with a frozen
`ConfigurationError` if the tree is frozen, then merges entry by entry.
Since the embedding is pure, a failed update leaves the caller's tree
untouched. -/
def LayeredConfigTree.update (t : LayeredConfigTree) (m : RawMap)
    (layer source : Option String) : Except ConfigError LayeredConfigTree :=
  if t.frozen then
    .error (.configurationError
      ("Frozen LayeredConfigTree " ++ t.name ++ " does not support update."))
  else
    t.update_entries m layer source

/-- Modelled from the spec and `test_set_missing_key` /
`test_outer_layer_set`: bare attribute or item assignment.  An existing
key is written through its cell at the default (highest-precedence)
layer; a missing key is refused with `ConfigurationKeyError` — new keys
can only be created through `update`. -/
def LayeredConfigTree.set_item (t : LayeredConfigTree) (key : String)
    (value : String) : Except ConfigError LayeredConfigTree :=
  if (t.children.lookup key).isSome then
    t.set_with_metadata key value none none
  else
    .error (.configurationKeyError
      ("New configuration keys can only be created through update: "
        ++ key ++ "."))

/-- Result of reading one key of a tree: a leaf's resolved value, or the
nested subtree. -/
inductive GetResult where
  | value (v : String)
  | subtree (t : LayeredConfigTree)
deriving Repr, DecidableEq

/-- Modelled from the spec: `get_from_layer(name, layer)` and
attribute/item read access (which is `get_from_layer` with no explicit
layer).  A leaf child resolves through `ConfigNode.get_value` (marking
it accessed on success), a subtree child is returned unchanged, and a
missing key fails with `ConfigurationKeyError`.  Returns the outcome
together with the post-state of the tree. -/
def LayeredConfigTree.get_from_layer (t : LayeredConfigTree) (key : String)
    (layer : Option String) :
    Except ConfigError GetResult × LayeredConfigTree :=
  match t.children.lookup key with
  | some (.node n) =>
      match n.get_value layer with
      | (.ok v, n') => (.ok (.value v), t.with_child key (.node n'))
      | (.error e, _) => (.error e, t)
  | some (.tree sub) => (.ok (.subtree sub), t)
  | none =>
      (.error (.configurationKeyError ("No value at name " ++ key ++ ".")), t)

/-- Modelled from the spec: `metadata(key)` — the provenance list of the
leaf cell stored at `key`; fails with `ConfigurationKeyError` when no
cell is stored there. -/
def LayeredConfigTree.metadata (t : LayeredConfigTree) (key : String) :
    Except ConfigError (List MetadataEntry) :=
  match t.children.lookup key with
  | some (.node n) => .ok n.metadata
  | _ => .error (.configurationKeyError ("No value at name " ++ key ++ "."))

mutual
/-- Modelled from the spec: `freeze()` recursively freezes the tree and
every descendant cell and subtree. -/
def LayeredConfigTree.freeze : LayeredConfigTree → LayeredConfigTree
  | .mk ls nm _ cs => .mk ls nm true cs.freeze
def Children.freeze : Children → Children
  | .nil => .nil
  | .cons k c rest => .cons k c.freeze rest.freeze
def TreeChild.freeze : TreeChild → TreeChild
  | .node n => .node n.freeze
  | .tree t => .tree t.freeze
end

/-! Whether the tree and every descendant cell and subtree are frozen:
`all_frozen`. -/
mutual
def LayeredConfigTree.all_frozen : LayeredConfigTree → Bool
  | .mk _ _ fz cs => fz && cs.all_frozen
def Children.all_frozen : Children → Bool
  | .nil => true
  | .cons _ c rest => c.all_frozen && rest.all_frozen
def TreeChild.all_frozen : TreeChild → Bool
  | .node n => n.frozen
  | .tree t => t.all_frozen
end

/-- Deep read of a dotted key path down to a leaf value, with the given
explicit layer (or none).  This is the composition of attribute reads
the tests perform (`d.test_key.test_key2`), returning the read outcome
and the post-state of the tree (the leaf marked accessed on success). -/
def LayeredConfigTree.read_path (t : LayeredConfigTree) (p : List String)
    (layer : Option String) : Except ConfigError String × LayeredConfigTree :=
  match p with
  | [] => (.error (.configurationKeyError "Empty key path."), t)
  | [key] =>
      match t.children.lookup key with
      | some (.node n) =>
          match n.get_value layer with
          | (.ok v, n') => (.ok v, t.with_child key (.node n'))
          | (.error e, _) => (.error e, t)
      | _ =>
          (.error (.configurationKeyError ("No value at name " ++ key ++ ".")),
            t)
  | key :: rest =>
      match t.children.lookup key with
      | some (.tree sub) =>
          let r := sub.read_path rest layer
          (r.1, t.with_child key (.tree r.2))
      | _ =>
          (.error (.configurationKeyError ("No value at name " ++ key ++ ".")),
            t)

/-- The leaf cell stored at a key path, if any. -/
def LayeredConfigTree.node_at (t : LayeredConfigTree) : List String →
    Option ConfigNode
  | [] => none
  | [key] =>
      match t.children.lookup key with
      | some (.node n) => some n
      | _ => none
  | key :: rest =>
      match t.children.lookup key with
      | some (.tree sub) => sub.node_at rest
      | _ => none

/-- Whether the leaf cell at a key path exists and has been accessed. -/
def LayeredConfigTree.accessed_at (t : LayeredConfigTree) (p : List String) :
    Bool :=
  ((t.node_at p).map ConfigNode.accessed).getD false

/-! Modelled from the spec: `unused_keys()` — depth-first traversal
collecting every leaf cell whose accessed flag is false, rendered as
dot-joined paths from the root. -/
mutual
def LayeredConfigTree.unused_keys : LayeredConfigTree → List String
  | .mk _ _ _ cs => cs.unused_keys
def Children.unused_keys : Children → List String
  | .nil => []
  | .cons k (.node n) rest =>
      (if n.accessed then [] else [k]) ++ rest.unused_keys
  | .cons k (.tree sub) rest =>
      (sub.unused_keys.map fun s => k ++ "." ++ s) ++ rest.unused_keys
end

/-! The same traversal as `unused_keys`, before dot-joining: the
root-relative key paths of the unaccessed leaf cells, in depth-first
order (`unused_paths`). -/
mutual
def LayeredConfigTree.unused_paths : LayeredConfigTree → List (List String)
  | .mk _ _ _ cs => cs.unused_paths
def Children.unused_paths : Children → List (List String)
  | .nil => []
  | .cons k (.node n) rest =>
      (if n.accessed then [] else [[k]]) ++ rest.unused_paths
  | .cons k (.tree sub) rest =>
      (sub.unused_paths.map fun p => k :: p) ++ rest.unused_paths
end

/-! Every leaf cell of the tree with its root-relative key path, in
depth-first order: `leaf_entries`. -/
mutual
def LayeredConfigTree.leaf_entries : LayeredConfigTree →
    List (List String × ConfigNode)
  | .mk _ _ _ cs => cs.leaf_entries
def Children.leaf_entries : Children → List (List String × ConfigNode)
  | .nil => []
  | .cons k (.node n) rest => ([k], n) :: rest.leaf_entries
  | .cons k (.tree sub) rest =>
      (sub.leaf_entries.map fun e => (k :: e.1, e.2)) ++ rest.leaf_entries
end

/-- Dot-joining of a key path. -/
def join_path : List String → String
  | [] => ""
  | [k] => k
  | k :: rest => k ++ "." ++ join_path rest

/-- Whether a list of child keys is duplicate-free. -/
def keys_nodup : List String → Bool
  | [] => true
  | k :: rest => (!decide (k ∈ rest)) && keys_nodup rest

/-! Well-formedness `wf`: at every level of the tree the child keys are
duplicate-free, as they are for every tree reachable through the API
(Python dict keys are unique). -/
mutual
def LayeredConfigTree.wf : LayeredConfigTree → Bool
  | .mk _ _ _ cs => keys_nodup cs.keys && cs.wf
def Children.wf : Children → Bool
  | .nil => true
  | .cons _ c rest => c.wf && rest.wf
def TreeChild.wf : TreeChild → Bool
  | .node _ => true
  | .tree t => t.wf
end

/-- One externally visible operation on a tree, for reasoning about
arbitrary operation sequences. -/
inductive Op where
  | update (m : RawMap) (layer : Option String) (source : Option String)
  | assign (key : String) (value : String)
  | read (p : List String) (layer : Option String)
  | freeze
deriving Repr

/-- The tree after one operation: a raising write leaves the tree
unchanged, a read keeps its access-marking side effect. -/
def LayeredConfigTree.apply_op (t : LayeredConfigTree) : Op →
    LayeredConfigTree
  | .update m l s =>
      match t.update m l s with
      | .ok t' => t'
      | .error _ => t
  | .assign k v =>
      match t.set_item k v with
      | .ok t' => t'
      | .error _ => t
  | .read p l => (t.read_path p l).2
  | .freeze => t.freeze

/-- The tree after a sequence of operations. -/
def LayeredConfigTree.apply_ops (t : LayeredConfigTree) (ops : List Op) :
    LayeredConfigTree :=
  ops.foldl LayeredConfigTree.apply_op t

/-- First write in a sequence that targets the given layer. -/
def find_write (layers : List String) : List Write → String → Option Write
  | [], _ => none
  | w :: ws, l => if w.target layers = l then some w else find_write layers ws l

/-- The layers targeted by a sequence of writes, in order. -/
def targets (layers : List String) (ws : List Write) : List String :=
  ws.map (Write.target layers)

/-! Sanity checks: the embedding reproduces concrete runs from the test
suite (`test_node_update_no_args`, `test_multiple_layer_get`). -/

example : (ConfigNode.new ["base"] "n").update "v" none none =
    .ok ⟨["base"], "n", [("base", (none, "v"))], false, false⟩ := by decide

example :
    ((ConfigNode.new ["layer_1", "layer_2"] "n").update "v" none none).map
      (fun n => lookup_layer n.values "layer_2") = .ok (some (none, "v")) := by
  decide

/-! Node-level lemmas. -/

theorem lookup_layer_append (vs : List (String × Option String × String))
    (l0 : String) (sv : Option String × String) (l : String) :
    lookup_layer (vs ++ [(l0, sv)]) l =
      match lookup_layer vs l with
      | some x => some x
      | none => if l0 = l then some sv else none := by
  induction vs with
  | nil => simp [lookup_layer]
  | cons hd tl ih =>
      obtain ⟨k, sv'⟩ := hd
      by_cases h : k = l
      · simp [lookup_layer, h]
      · simp [lookup_layer, h, ih]

theorem update_ok_iff (n : ConfigNode) (v : String) (lay src : Option String)
    (n' : ConfigNode) :
    n.update v lay src = .ok n' ↔
      n.frozen = false ∧ target_layer n.layers lay ∈ n.layers ∧
      lookup_layer n.values (target_layer n.layers lay) = none ∧
      n' = { n with
        values := n.values ++ [(target_layer n.layers lay, (src, v))] } := by
  unfold ConfigNode.update
  cases hf : n.frozen with
  | true => simp
  | false =>
      by_cases hm : target_layer n.layers lay ∈ n.layers
      · cases hlk : lookup_layer n.values (target_layer n.layers lay) with
        | none => simp [hm, hlk, eq_comm]
        | some sv => simp [hm, hlk]
      · simp [hm]

theorem update_ok_fields {n n' : ConfigNode} {v : String} {lay src : Option String}
    (h : n.update v lay src = .ok n') :
    n'.layers = n.layers ∧ n'.name = n.name ∧ n'.accessed = n.accessed ∧
      n'.frozen = n.frozen ∧
      n'.values = n.values ++ [(target_layer n.layers lay, (src, v))] ∧
      n.frozen = false ∧ target_layer n.layers lay ∈ n.layers ∧
      lookup_layer n.values (target_layer n.layers lay) = none := by
  obtain ⟨h1, h2, h3, h4⟩ := (update_ok_iff n v lay src n').mp h
  subst h4
  exact ⟨rfl, rfl, rfl, h1.symm ▸ rfl, rfl, h1, h2, h3⟩

theorem apply_writes_ok {n n' : ConfigNode} {ws : List Write}
    (h : n.apply_writes ws = .ok n') :
    n'.layers = n.layers ∧ n'.name = n.name ∧ n'.accessed = n.accessed ∧
      n'.frozen = n.frozen := by
  induction ws generalizing n with
  | nil =>
      simp [ConfigNode.apply_writes] at h
      subst h
      exact ⟨rfl, rfl, rfl, rfl⟩
  | cons w ws ih =>
      unfold ConfigNode.apply_writes at h
      cases hu : n.update w.value w.layer w.source with
      | error e => rw [hu] at h; cases h
      | ok n1 =>
          rw [hu] at h
          obtain ⟨l1, m1, a1, f1⟩ := ih h
          obtain ⟨l2, m2, a2, f2, _⟩ := update_ok_fields hu
          exact ⟨l1.trans l2, m1.trans m2, a1.trans a2, f1.trans f2⟩

theorem apply_writes_lookup {n n' : ConfigNode} {ws : List Write}
    (h : n.apply_writes ws = .ok n') (l : String) :
    lookup_layer n'.values l =
      match lookup_layer n.values l with
      | some sv => some sv
      | none => (find_write n.layers ws l).map fun w => (w.source, w.value) := by
  induction ws generalizing n with
  | nil =>
      simp [ConfigNode.apply_writes] at h
      subst h
      cases lookup_layer n.values l <;> simp [find_write]
  | cons w ws ih =>
      unfold ConfigNode.apply_writes at h
      cases hu : n.update w.value w.layer w.source with
      | error e => rw [hu] at h; cases h
      | ok n1 =>
          rw [hu] at h
          obtain ⟨hL, _, _, _, hV, _, _, hNone⟩ := update_ok_fields hu
          rw [ih h, hV, hL, lookup_layer_append]
          cases hbase : lookup_layer n.values l with
          | some sv => simp
          | none =>
              by_cases ht : target_layer n.layers w.layer = l
              · simp [find_write, Write.target, ht]
              · simp [find_write, Write.target, ht]

theorem apply_writes_fresh {n n' : ConfigNode} {ws : List Write}
    (h : n.apply_writes ws = .ok n') :
    ∀ w ∈ ws, lookup_layer n.values (w.target n.layers) = none := by
  induction ws generalizing n with
  | nil => intro w hw; cases hw
  | cons w0 ws ih =>
      unfold ConfigNode.apply_writes at h
      cases hu : n.update w0.value w0.layer w0.source with
      | error e => rw [hu] at h; cases h
      | ok n1 =>
          rw [hu] at h
          obtain ⟨hL, _, _, _, hV, _, _, hNone⟩ := update_ok_fields hu
          intro w hw
          rcases List.mem_cons.mp hw with rfl | hw'
          · exact hNone
          · have h2 := ih h w hw'
            rw [hL] at h2
            rw [hV, lookup_layer_append] at h2
            cases hbase : lookup_layer n.values (w.target n.layers) with
            | none => rfl
            | some sv => rw [hbase] at h2; cases h2

theorem apply_writes_targets_nodup {n n' : ConfigNode} {ws : List Write}
    (h : n.apply_writes ws = .ok n') : (targets n.layers ws).Nodup := by
  induction ws generalizing n with
  | nil => simp [targets]
  | cons w0 ws ih =>
      unfold ConfigNode.apply_writes at h
      cases hu : n.update w0.value w0.layer w0.source with
      | error e => rw [hu] at h; cases h
      | ok n1 =>
          rw [hu] at h
          obtain ⟨hL, _, _, _, hV, _, _, hNone⟩ := update_ok_fields hu
          have htail := ih h
          rw [hL] at htail
          rw [targets, List.map_cons, List.nodup_cons]
          refine ⟨?_, htail⟩
          intro hmem
          obtain ⟨w, hw, hww⟩ := List.mem_map.mp hmem
          have h2 := apply_writes_fresh h w hw
          rw [hL, hV, lookup_layer_append, hww] at h2
          simp only [Write.target] at h2
          rw [hNone] at h2
          simp at h2

theorem find_write_eq_some {layers : List String} {ws : List Write} {l : String}
    {w : Write} (h : find_write layers ws l = some w) :
    w ∈ ws ∧ w.target layers = l := by
  induction ws with
  | nil => cases h
  | cons w0 ws ih =>
      unfold find_write at h
      by_cases ht : w0.target layers = l
      · rw [if_pos ht] at h
        cases h
        exact ⟨List.mem_cons_self _ _, ht⟩
      · rw [if_neg ht] at h
        obtain ⟨hm, hte⟩ := ih h
        exact ⟨List.mem_cons_of_mem _ hm, hte⟩

theorem find_write_eq_none {layers : List String} {ws : List Write} {l : String} :
    find_write layers ws l = none ↔ ∀ w ∈ ws, w.target layers ≠ l := by
  induction ws with
  | nil => simp [find_write]
  | cons w0 ws ih =>
      unfold find_write
      by_cases ht : w0.target layers = l
      · simp [ht]
      · simp [ht, ih]

theorem find_write_of_mem {layers : List String} {ws : List Write} {l : String}
    {w : Write} (hw : w ∈ ws) (ht : w.target layers = l)
    (hnd : (targets layers ws).Nodup) : find_write layers ws l = some w := by
  induction ws with
  | nil => cases hw
  | cons w0 ws ih =>
      rw [targets, List.map_cons, List.nodup_cons] at hnd
      rcases List.mem_cons.mp hw with rfl | hw'
      · unfold find_write
        rw [if_pos ht]
      · unfold find_write
        by_cases h0 : w0.target layers = l
        · exfalso
          apply hnd.1
          rw [h0, ← ht]
          exact List.mem_map.mpr ⟨w, hw', rfl⟩
        · rw [if_neg h0]
          exact ih hw' hnd.2

theorem find_write_perm {layers : List String} {ws ws' : List Write} {l : String}
    (hp : ws.Perm ws') (hnd : (targets layers ws).Nodup) :
    find_write layers ws l = find_write layers ws' l := by
  have hnd' : (targets layers ws').Nodup := ((hp.map _).nodup_iff).mp hnd
  cases hfw : find_write layers ws l with
  | some w =>
      obtain ⟨hm, ht⟩ := find_write_eq_some hfw
      exact (find_write_of_mem (hp.mem_iff.mp hm) ht hnd').symm
  | none =>
      symm
      rw [find_write_eq_none] at hfw ⊢
      intro w hw
      exact hfw w (hp.mem_iff.mpr hw)

theorem resolve_default_eq (layers : List String)
    (values : List (String × Option String × String)) :
    resolve_default layers values =
      match (layers.filter fun l => (lookup_layer values l).isSome).getLast? with
      | some l => lookup_layer values l
      | none => none := by
  induction layers with
  | nil => simp [resolve_default]
  | cons l rest ih =>
      unfold resolve_default
      rw [ih, List.filter_cons]
      cases hF : rest.filter fun x => (lookup_layer values x).isSome with
      | nil =>
          by_cases hp : (lookup_layer values l).isSome
          · simp only [hp, if_true, List.getLast?_singleton]
            cases lookup_layer values l <;> simp
          · simp only [hp, Bool.false_eq_true, if_false, List.getLast?_nil]
            rw [Option.not_isSome_iff_eq_none] at hp
            simp [hp]
      | cons f0 F' =>
          cases hgl : (f0 :: F').getLast? with
          | none => rw [List.getLast?_eq_none_iff] at hgl; cases hgl
          | some l' =>
              have hl'mem : l' ∈ f0 :: F' := List.mem_of_mem_getLast? hgl
              rw [← hF] at hl'mem
              have hl'p : (lookup_layer values l').isSome = true :=
                (List.mem_filter.mp hl'mem).2
              obtain ⟨sv, hsv⟩ := Option.isSome_iff_exists.mp hl'p
              by_cases hp : (lookup_layer values l).isSome
              · simp only [hp, if_true]
                rw [List.getLast?_cons_cons, hgl]
                simp [hsv]
              · simp only [hp, Bool.false_eq_true, if_false]
                rw [hgl]
                simp [hsv]

theorem resolve_default_congr {v1 v2 : List (String × Option String × String)}
    (layers : List String) (hc : ∀ l, lookup_layer v1 l = lookup_layer v2 l) :
    resolve_default layers v1 = resolve_default layers v2 := by
  induction layers with
  | nil => rfl
  | cons l rest ih => unfold resolve_default; rw [ih, hc]

/-- C2: a second write to the same (key, layer) pair always fails with
`DuplicatedConfigurationError`, for every incoming value (in particular
one equal to the stored one), the error carries the offending layer and
the stored source and value, and the cell is left unchanged. -/
theorem C2_duplicate_write_always_fails (n : ConfigNode) (v : String)
    (lay src : Option String) (s0 : Option String) (v0 : String)
    (hfz : n.frozen = false)
    (hmem : target_layer n.layers lay ∈ n.layers)
    (hdup : lookup_layer n.values (target_layer n.layers lay) = some (s0, v0)) :
    n.update v lay src = .error (.duplicatedConfigurationError
      ("Value for " ++ n.name ++ " at layer " ++ target_layer n.layers lay
        ++ " already exists.")
      n.name (some (target_layer n.layers lay)) s0 v0)
    ∧ (n.update_state v lay src).2 = n := by
  have h1 : n.update v lay src = .error (.duplicatedConfigurationError
      ("Value for " ++ n.name ++ " at layer " ++ target_layer n.layers lay
        ++ " already exists.")
      n.name (some (target_layer n.layers lay)) s0 v0) := by
    unfold ConfigNode.update
    simp [hfz, hmem, hdup]
  refine ⟨h1, ?_⟩
  unfold ConfigNode.update_state
  rw [h1]

/-- C2 witness: writing `test_value` a second time at the single layer
`base` (the same value as stored) fails with the duplicate error carrying
layer `base` and the stored source and value, and leaves the cell as it
was. -/
theorem C2_duplicate_write_always_fails_witness :
    (ConfigNode.mk ["base"] "test_node" [("base", (none, "test_value"))]
        false false).update "test_value" none none
      = .error (.duplicatedConfigurationError
          "Value for test_node at layer base already exists."
          "test_node" (some "base") none "test_value")
    ∧ ((ConfigNode.mk ["base"] "test_node" [("base", (none, "test_value"))]
        false false).update_state "test_value" none none).2
      = ConfigNode.mk ["base"] "test_node" [("base", (none, "test_value"))]
          false false :=
  C2_duplicate_write_always_fails _ "test_value" none none none "test_value"
    (by decide) (by decide) (by decide)

/-- C9: a write naming a layer absent from the shared ordering fails with
`ConfigurationKeyError` (the spec's `UnknownLayerError`) and has no
effect on the cell's stored values. -/
theorem C9_unknown_layer_write_fails (n : ConfigNode) (l : String) (v : String)
    (src : Option String) (hfz : n.frozen = false) (hmem : l ∉ n.layers) :
    (n.update_state v (some l) src).1 = .error (.configurationKeyError
      ("No layer " ++ l ++ " in ConfigNode " ++ n.name ++ "."))
    ∧ (n.update_state v (some l) src).2 = n := by
  have h1 : n.update v (some l) src = .error (.configurationKeyError
      ("No layer " ++ l ++ " in ConfigNode " ++ n.name ++ ".")) := by
    unfold ConfigNode.update
    simp [hfz, target_layer]
    intro hmem'
    exact absurd hmem' hmem
  constructor <;> (unfold ConfigNode.update_state; rw [h1])

/-- C9 witness: on a fresh single-layer cell, a write naming the unknown
layer `layer_1` fails with the key error and leaves the cell unchanged,
as in `test_node_bad_layer_update`. -/
theorem C9_unknown_layer_write_fails_witness :
    ((ConfigNode.new ["base"] "test_node").update_state "test_value"
        (some "layer_1") none).1
      = .error (.configurationKeyError
          "No layer layer_1 in ConfigNode test_node.")
    ∧ ((ConfigNode.new ["base"] "test_node").update_state "test_value"
        (some "layer_1") none).2 = ConfigNode.new ["base"] "test_node" :=
  C9_unknown_layer_write_fails _ "layer_1" "test_value" none
    (by decide) (by decide)

/-- C6: resolving a cell's value marks it accessed only on success — a
successful `get_value` (with or without an explicit layer) returns the
cell with only the accessed flag switched on, a failing one returns the
cell unchanged, and the returned value is the value component of the
`(source, value)` pair computed by `get_value_with_source`. -/
theorem C6_accessed_only_on_success (n : ConfigNode) (lay : Option String) :
    (∀ v, (n.get_value lay).1 = .ok v →
      (n.get_value lay).2 = { n with accessed := true })
    ∧ (∀ e, (n.get_value lay).1 = .error e → (n.get_value lay).2 = n)
    ∧ (n.get_value lay).1 = (n.get_value_with_source lay).map Prod.snd := by
  unfold ConfigNode.get_value
  cases h : n.get_value_with_source lay <;> simp [Except.map]

/-- C6 witness: on a populated cell the default-layer read returns the
cell marked accessed; on an empty cell the read fails and leaves the
accessed flag false. -/
theorem C6_accessed_only_on_success_witness :
    ((ConfigNode.mk ["base"] "n" [("base", (none, "v"))] false false).get_value
        none).2
      = ConfigNode.mk ["base"] "n" [("base", (none, "v"))] true false
    ∧ ((ConfigNode.new ["base"] "n").get_value none).2
      = ConfigNode.new ["base"] "n" :=
  ⟨(C6_accessed_only_on_success
      (ConfigNode.mk ["base"] "n" [("base", (none, "v"))] false false) none).1
        "v" (by decide),
   (C6_accessed_only_on_success (ConfigNode.new ["base"] "n") none).2.1
     (.configurationKeyError "No value stored in n.") (by decide)⟩

/-- C10 counterexample: `ConfigurationError.__init__` drops `value_name`
(it only forwards the message to `Exception.__init__`), so two errors
constructed with the same message but different offending key names are
indistinguishable objects — the key name is not retained. -/
theorem C10_value_name_not_retained_counterexample :
    mk_configuration_error "invalid configuration" (some "key_a")
      = mk_configuration_error "invalid configuration" (some "key_b")
    ∧ (some "key_a" : Option String) ≠ some "key_b" := by
  exact ⟨rfl, by decide⟩

/-- C10 amended: every error in the configuration-error family retains
its message (as the exception's `args`), but the `value_name` passed at
construction is not retained on the object; `DuplicatedConfigurationError`
additionally retains its `layer`, `source` and `value` attributes. -/
theorem C10_error_family_state (m nm : String) (vn lay src : Option String)
    (v : String) :
    (mk_configuration_error m vn).args = [m]
    ∧ mk_configuration_error m vn = mk_configuration_error m none
    ∧ (mk_duplicated_configuration_error m nm lay src v).args = [m]
    ∧ (mk_duplicated_configuration_error m nm lay src v).layer = lay
    ∧ (mk_duplicated_configuration_error m nm lay src v).source = src
    ∧ (mk_duplicated_configuration_error m nm lay src v).value = v :=
  ⟨rfl, rfl, rfl, rfl, rfl, rfl⟩

/-- C1: over any layer ordering, after any successful sequence of writes
against a fresh cell, the default (no explicit layer) resolution returns
the value stored at the highest-precedence populated layer; the result
is independent of the order of the writes (any permutation of the write
sequence that also succeeds resolves identically); and tree-level
resolution of a key holding such a cell delegates to exactly this cell
resolution. -/
theorem C1_highest_populated_layer_wins (layers : List String) (name : String)
    (ws ws' : List Write) (n n' : ConfigNode)
    (hperm : ws.Perm ws')
    (h : (ConfigNode.new layers name).apply_writes ws = .ok n)
    (h' : (ConfigNode.new layers name).apply_writes ws' = .ok n') :
    (∀ l, n.populated_layers.getLast? = some l →
      ∃ sv, lookup_layer n.values l = some sv ∧ (n.get_value none).1 = .ok sv.2)
    ∧ (n.get_value none).1 = (n'.get_value none).1
    ∧ ∀ (t : LayeredConfigTree) (k : String),
        t.children.lookup k = some (.node n) →
        (t.get_from_layer k none).1 = ((n.get_value none).1).map GetResult.value
    := by
  have hL : n.layers = layers := (apply_writes_ok h).1
  have hL' : n'.layers = layers := (apply_writes_ok h').1
  refine ⟨?_, ?_, ?_⟩
  · intro l hl
    unfold ConfigNode.populated_layers at hl
    have hres := resolve_default_eq n.layers n.values
    rw [hl] at hres
    have hmem : l ∈ n.layers.filter fun x => (lookup_layer n.values x).isSome :=
      List.mem_of_mem_getLast? hl
    have hp : (lookup_layer n.values l).isSome = true :=
      (List.mem_filter.mp hmem).2
    obtain ⟨sv, hsv⟩ := Option.isSome_iff_exists.mp hp
    refine ⟨sv, hsv, ?_⟩
    have hres2 : resolve_default n.layers n.values = some sv := by
      rw [hres]; exact hsv
    simp [ConfigNode.get_value, ConfigNode.get_value_with_source, hres2]
  · have hN : n.name = name := (apply_writes_ok h).2.1
    have hN' : n'.name = name := (apply_writes_ok h').2.1
    have hnd : (targets layers ws).Nodup := apply_writes_targets_nodup h
    have hlook : ∀ l, lookup_layer n.values l = lookup_layer n'.values l := by
      intro l
      have e1 := apply_writes_lookup h l
      have e2 := apply_writes_lookup h' l
      simp only [ConfigNode.new, lookup_layer] at e1 e2
      rw [e1, e2]
      rw [find_write_perm hperm hnd]
    have hres : resolve_default n.layers n.values
        = resolve_default n'.layers n'.values := by
      rw [hL, hL']
      exact resolve_default_congr layers hlook
    unfold ConfigNode.get_value ConfigNode.get_value_with_source
    rw [hres]
    cases resolve_default n'.layers n'.values <;> simp [hN, hN']
  · intro t k hk
    unfold LayeredConfigTree.get_from_layer
    rw [hk]
    cases hgv : n.get_value none with
    | mk r n2 =>
        cases r <;> simp [hgv, Except.map]

/-- C1 witness: layers `first < second < third` written in two opposite
orders (as in `test_multiple_layer_get` and `test_retrieval_behavior`)
resolve to the `third`-layer value either way. -/
theorem C1_highest_populated_layer_wins_witness :
    (∃ sv,
      lookup_layer (ConfigNode.mk ["first", "second", "third"] "test_key"
        [("first", (none, "v1")), ("second", (none, "v2")),
          ("third", (none, "v3"))] false false).values "third" = some sv
      ∧ ((ConfigNode.mk ["first", "second", "third"] "test_key"
          [("first", (none, "v1")), ("second", (none, "v2")),
            ("third", (none, "v3"))] false false).get_value none).1
        = .ok sv.2)
    ∧ ((ConfigNode.mk ["first", "second", "third"] "test_key"
        [("first", (none, "v1")), ("second", (none, "v2")),
          ("third", (none, "v3"))] false false).get_value none).1
      = ((ConfigNode.mk ["first", "second", "third"] "test_key"
        [("third", (none, "v3")), ("second", (none, "v2")),
          ("first", (none, "v1"))] false false).get_value none).1 := by
  have h := C1_highest_populated_layer_wins ["first", "second", "third"]
    "test_key"
    [⟨some "first", none, "v1"⟩, ⟨some "second", none, "v2"⟩,
      ⟨some "third", none, "v3"⟩]
    [⟨some "third", none, "v3"⟩, ⟨some "second", none, "v2"⟩,
      ⟨some "first", none, "v1"⟩]
    (ConfigNode.mk ["first", "second", "third"] "test_key"
      [("first", (none, "v1")), ("second", (none, "v2")),
        ("third", (none, "v3"))] false false)
    (ConfigNode.mk ["first", "second", "third"] "test_key"
      [("third", (none, "v3")), ("second", (none, "v2")),
        ("first", (none, "v1"))] false false)
    (by decide) (by decide) (by decide)
  exact ⟨h.1 "third" (by decide), h.2.1⟩

/-- C8: for a key holding a leaf cell, `metadata` returns the cell's
provenance — after any successful write sequence against a fresh cell,
one `{layer, source, value}` entry per populated layer, walking the
shared ordering from lowest to highest precedence, each entry coming
from the unique write that targeted that layer; for an absent key it
fails with `ConfigurationKeyError`. -/
theorem C8_metadata_per_populated_layer (layers : List String) (name : String)
    (ws : List Write) (n : ConfigNode)
    (h : (ConfigNode.new layers name).apply_writes ws = .ok n) :
    (∀ (t : LayeredConfigTree) (k : String),
      t.children.lookup k = some (.node n) → t.metadata k = .ok n.metadata)
    ∧ n.metadata = layers.filterMap (fun l =>
        (find_write layers ws l).map fun w => MetadataEntry.mk l w.source w.value)
    ∧ ∀ (t : LayeredConfigTree) (k : String), t.children.lookup k = none →
        t.metadata k = .error (.configurationKeyError
          ("No value at name " ++ k ++ ".")) := by
  refine ⟨?_, ?_, ?_⟩
  · intro t k hk
    unfold LayeredConfigTree.metadata
    rw [hk]
  · have hfun : ∀ l,
        (lookup_layer n.values l).map (fun sv => MetadataEntry.mk l sv.1 sv.2)
          = (find_write layers ws l).map
              fun w => MetadataEntry.mk l w.source w.value := by
      intro l
      have e1 := apply_writes_lookup h l
      simp only [ConfigNode.new, lookup_layer] at e1
      rw [e1]
      cases find_write layers ws l <;> simp
    unfold ConfigNode.metadata
    rw [(apply_writes_ok h).1]
    simp only [ConfigNode.new]
    simp only [hfun]
  · intro t k hk
    unfold LayeredConfigTree.metadata
    rw [hk]

/-- C8 witness: the `test_source_metadata` scenario — `inner` written
from `initial_load`, then `outer` from `update`; the metadata lists the
`inner` entry first and the `outer` entry second. -/
theorem C8_metadata_per_populated_layer_witness :
    (ConfigNode.mk ["inner", "outer"] "test_key"
      [("inner", (some "initial_load", "test_value")),
        ("outer", (some "update", "test_value2"))] false false).metadata
      = [MetadataEntry.mk "inner" (some "initial_load") "test_value",
          MetadataEntry.mk "outer" (some "update") "test_value2"] := by
  have h := C8_metadata_per_populated_layer ["inner", "outer"] "test_key"
    [⟨some "inner", some "initial_load", "test_value"⟩,
      ⟨some "outer", some "update", "test_value2"⟩]
    (ConfigNode.mk ["inner", "outer"] "test_key"
      [("inner", (some "initial_load", "test_value")),
        ("outer", (some "update", "test_value2"))] false false)
    (by decide)
  rw [h.2.1]
  decide

theorem default_layer_mem {layers : List String} (hne : layers ≠ []) :
    default_layer layers ∈ layers := by
  unfold default_layer
  cases hgl : layers.getLast? with
  | none => rw [List.getLast?_eq_none_iff] at hgl; contradiction
  | some l => exact List.mem_of_mem_getLast? hgl

/-- C3 counterexample: the `test_outer_layer_set` scenario.  With layers
`inner < outer` and `test_key` already holding a value at layer `inner`,
a bare (no-layer) assignment to `test_key` succeeds — writing the value
into the `outer` layer — so bare assignment to an already-populated key
does not always fail, and a bare assignment can be a second write. -/
theorem C3_populated_key_bare_assignment_counterexample :
    (LayeredConfigTree.new ["inner", "outer"] "").set_with_metadata
        "test_key" "test_value" (some "inner") none
      = .ok (LayeredConfigTree.mk ["inner", "outer"] "" false
          (.cons "test_key" (.node (ConfigNode.mk ["inner", "outer"] "test_key"
            [("inner", (none, "test_value"))] false false)) .nil))
    ∧ ((LayeredConfigTree.mk ["inner", "outer"] "" false
          (.cons "test_key" (.node (ConfigNode.mk ["inner", "outer"] "test_key"
            [("inner", (none, "test_value"))] false false)) .nil)).node_at
        ["test_key"]).map (fun n => lookup_layer n.values "inner")
      = some (some (none, "test_value"))
    ∧ ((LayeredConfigTree.mk ["inner", "outer"] "" false
          (.cons "test_key" (.node (ConfigNode.mk ["inner", "outer"] "test_key"
            [("inner", (none, "test_value"))] false false)) .nil)).set_item
        "test_key" "test_value3").isOk = true := by
  decide

/-- C3 amended: a bare (no-layer) assignment to a key writes the key's
cell at the default (highest-precedence) layer, so it fails with
`DuplicatedConfigurationError` exactly when that default layer is
already populated, succeeds when the default layer is still empty (even
if lower layers hold values), and fails with `ConfigurationKeyError` on
a key absent from the tree. -/
theorem C3_bare_assignment_default_layer_rule (t : LayeredConfigTree)
    (k v : String) (n : ConfigNode)
    (hchild : t.children.lookup k = some (.node n))
    (hfz : n.frozen = false)
    (hlay : n.layers = t.layers)
    (hne : t.layers ≠ []) :
    (∀ s0 v0, lookup_layer n.values (default_layer t.layers) = some (s0, v0) →
      t.set_item k v = .error (.duplicatedConfigurationError
        ("Value for " ++ n.name ++ " at layer " ++ default_layer t.layers
          ++ " already exists.")
        n.name (some (default_layer t.layers)) s0 v0))
    ∧ (lookup_layer n.values (default_layer t.layers) = none →
      t.set_item k v = .ok (t.with_child k (.node { n with
        values := n.values ++ [(default_layer t.layers, (none, v))] })))
    ∧ ∀ k', t.children.lookup k' = none →
      t.set_item k' v = .error (.configurationKeyError
        ("New configuration keys can only be created through update: "
          ++ k' ++ ".")) := by
  have hmem : default_layer t.layers ∈ n.layers := by
    rw [hlay]; exact default_layer_mem hne
  have htl : target_layer n.layers none = default_layer t.layers := by
    unfold target_layer
    rw [hlay]
    rfl
  refine ⟨?_, ?_, ?_⟩
  · intro s0 v0 hdup
    have hupd : n.update v none none = .error (.duplicatedConfigurationError
        ("Value for " ++ n.name ++ " at layer " ++ default_layer t.layers
          ++ " already exists.")
        n.name (some (default_layer t.layers)) s0 v0) := by
      unfold ConfigNode.update
      rw [htl]
      simp [hfz, hmem, hdup]
    unfold LayeredConfigTree.set_item
    rw [hchild]
    unfold LayeredConfigTree.set_with_metadata
    rw [hchild]
    simp [hupd, Except.map]
  · intro hnone
    have hupd : n.update v none none = .ok { n with
        values := n.values ++ [(default_layer t.layers, (none, v))] } := by
      rw [update_ok_iff]
      rw [htl]
      exact ⟨hfz, hmem, hnone, rfl⟩
    unfold LayeredConfigTree.set_item
    rw [hchild]
    unfold LayeredConfigTree.set_with_metadata
    rw [hchild]
    simp [hupd, Except.map]
  · intro k' hk'
    unfold LayeredConfigTree.set_item
    rw [hk']
    simp

/-- C3 amended witness: with layers `inner < outer` and `test_key`
populated only at `inner`, the bare assignment succeeds and lands at
`outer`; a bare assignment to the absent `missing_key` fails with the
key error. -/
theorem C3_bare_assignment_default_layer_rule_witness :
    (LayeredConfigTree.mk ["inner", "outer"] "" false
        (.cons "test_key" (.node (ConfigNode.mk ["inner", "outer"] "test_key"
          [("inner", (none, "test_value"))] false false)) .nil)).set_item
      "test_key" "test_value3"
      = .ok (LayeredConfigTree.mk ["inner", "outer"] "" false
          (.cons "test_key" (.node (ConfigNode.mk ["inner", "outer"] "test_key"
            [("inner", (none, "test_value")), ("outer", (none, "test_value3"))]
            false false)) .nil))
    ∧ (LayeredConfigTree.mk ["inner", "outer"] "" false
        (.cons "test_key" (.node (ConfigNode.mk ["inner", "outer"] "test_key"
          [("inner", (none, "test_value"))] false false)) .nil)).set_item
      "missing_key" "test_value3"
      = .error (.configurationKeyError
          "New configuration keys can only be created through update: missing_key.") :=
  have h := C3_bare_assignment_default_layer_rule
    (LayeredConfigTree.mk ["inner", "outer"] "" false
      (.cons "test_key" (.node (ConfigNode.mk ["inner", "outer"] "test_key"
        [("inner", (none, "test_value"))] false false)) .nil))
    "test_key" "test_value3"
    (ConfigNode.mk ["inner", "outer"] "test_key"
      [("inner", (none, "test_value"))] false false)
    (by decide) (by decide) (by decide) (by decide)
  ⟨h.2.1 (by decide), h.2.2 "missing_key" (by decide)⟩

/-- C4 counterexample: the `test_set_missing_key` scenario.  On a fresh
tree, a bare assignment to the absent `missing_key` fails with
`ConfigurationKeyError` and creates nothing, while
`update({missing_key: value})` with no explicit layer succeeds — so bare
assignment is not equivalent to `update` for a key not yet present. -/
theorem C4_missing_key_bare_assignment_counterexample :
    (LayeredConfigTree.new ["base"] "").set_item "missing_key" "test_value"
      = .error (.configurationKeyError
          "New configuration keys can only be created through update: missing_key.")
    ∧ ((LayeredConfigTree.new ["base"] "").update
        (.cons "missing_key" (.scalar "test_value") .nil) none none).isOk
      = true := by
  decide

/-- C4 amended: for a key already present in the tree, bare assignment
is equivalent to `update({key: value})` with no explicit layer (both
write the default, highest-precedence layer and obey the duplicate
rule); for a key not present anywhere, bare assignment fails with
`ConfigurationKeyError` and only `update` creates the child cell,
storing the value under the default layer. -/
theorem C4_bare_assignment_vs_update (t : LayeredConfigTree) (k v : String)
    (hfz : t.frozen = false) :
    ((t.children.lookup k).isSome = true →
      t.set_item k v = t.update (.cons k (.scalar v) .nil) none none)
    ∧ (t.children.lookup k = none →
      t.set_item k v = .error (.configurationKeyError
        ("New configuration keys can only be created through update: "
          ++ k ++ ".")))
    ∧ ∀ l, t.children.lookup k = none → t.layers.getLast? = some l →
      t.update (.cons k (.scalar v) .nil) none none
        = .ok (t.with_child k (.node (ConfigNode.mk t.layers
            (child_name t.name k) [(l, (none, v))] false false))) := by
  refine ⟨?_, ?_, ?_⟩
  · intro hk
    unfold LayeredConfigTree.set_item LayeredConfigTree.update
    rw [hk, hfz]
    simp only [if_true, Bool.false_eq_true, if_false]
    unfold LayeredConfigTree.update_entries LayeredConfigTree.update_one
    cases hs : t.set_with_metadata k v none none with
    | ok t' => simp [hs, LayeredConfigTree.update_entries]
    | error e => simp [hs]
  · intro hk
    unfold LayeredConfigTree.set_item
    rw [hk]
    simp
  · intro l hk hl
    have hupd : (ConfigNode.new t.layers (child_name t.name k)).update v none
        none = .ok (ConfigNode.mk t.layers (child_name t.name k)
          [(l, (none, v))] false false) := by
      rw [update_ok_iff]
      refine ⟨rfl, ?_, rfl, ?_⟩
      · show target_layer t.layers none ∈ t.layers
        unfold target_layer default_layer
        rw [hl]
        exact List.mem_of_mem_getLast? hl
      · show ConfigNode.mk t.layers (child_name t.name k)
            [(l, (none, v))] false false
          = { ConfigNode.new t.layers (child_name t.name k) with
              values := [] ++ [(target_layer t.layers none, (none, v))] }
        unfold target_layer default_layer
        rw [hl]
        rfl
    unfold LayeredConfigTree.update
    rw [hfz]
    simp only [Bool.false_eq_true, if_false]
    unfold LayeredConfigTree.update_entries LayeredConfigTree.update_one
    unfold LayeredConfigTree.set_with_metadata
    rw [hk]
    simp [hupd, Except.map, LayeredConfigTree.update_entries]

/-- C4 amended witness: on a single-layer tree holding `test_key`, bare
assignment and single-key `update` agree; on the same tree, `update`
creates the absent `new_key` cell at the `base` layer. -/
theorem C4_bare_assignment_vs_update_witness :
    ((LayeredConfigTree.mk ["base"] "" false
        (.cons "test_key" (.node (ConfigNode.mk ["base"] "test_key"
          [("base", (none, "test_value"))] false false)) .nil)).set_item
      "test_key" "test_value3"
      = (LayeredConfigTree.mk ["base"] "" false
          (.cons "test_key" (.node (ConfigNode.mk ["base"] "test_key"
            [("base", (none, "test_value"))] false false)) .nil)).update
        (.cons "test_key" (.scalar "test_value3") .nil) none none)
    ∧ (LayeredConfigTree.mk ["base"] "" false
        (.cons "test_key" (.node (ConfigNode.mk ["base"] "test_key"
          [("base", (none, "test_value"))] false false)) .nil)).update
      (.cons "new_key" (.scalar "new_value") .nil) none none
      = .ok ((LayeredConfigTree.mk ["base"] "" false
          (.cons "test_key" (.node (ConfigNode.mk ["base"] "test_key"
            [("base", (none, "test_value"))] false false)) .nil)).with_child
        "new_key" (.node (ConfigNode.mk ["base"] "new_key"
          [("base", (none, "new_value"))] false false))) :=
  ⟨(C4_bare_assignment_vs_update
      (LayeredConfigTree.mk ["base"] "" false
        (.cons "test_key" (.node (ConfigNode.mk ["base"] "test_key"
          [("base", (none, "test_value"))] false false)) .nil))
      "test_key" "test_value3" (by decide)).1 (by decide),
   (C4_bare_assignment_vs_update
      (LayeredConfigTree.mk ["base"] "" false
        (.cons "test_key" (.node (ConfigNode.mk ["base"] "test_key"
          [("base", (none, "test_value"))] false false)) .nil))
      "new_key" "new_value" (by decide)).2.2 "base" (by decide) (by decide)⟩

theorem freeze_children_eq : ∀ (ls : List String) (nm : String) (fz : Bool)
    (cs : Children),
    (LayeredConfigTree.mk ls nm fz cs).freeze
      = LayeredConfigTree.mk ls nm true cs.freeze
  | _, _, _, _ => rfl

theorem freeze_name : ∀ (t : LayeredConfigTree), t.freeze.name = t.name
  | .mk _ _ _ _ => rfl

mutual
theorem tree_freeze_all_frozen : ∀ (t : LayeredConfigTree),
    t.freeze.all_frozen = true
  | .mk ls nm fz cs => by
      rw [freeze_children_eq]
      simp [LayeredConfigTree.all_frozen, children_freeze_all_frozen cs]
theorem children_freeze_all_frozen : ∀ (cs : Children),
    cs.freeze.all_frozen = true
  | .nil => rfl
  | .cons k c rest => by
      show (Children.cons k c.freeze rest.freeze).all_frozen = true
      simp [Children.all_frozen, child_freeze_all_frozen c,
        children_freeze_all_frozen rest]
theorem child_freeze_all_frozen : ∀ (c : TreeChild), c.freeze.all_frozen = true
  | .node n => rfl
  | .tree t => tree_freeze_all_frozen t
end

theorem children_freeze_lookup : ∀ (cs : Children) (k : String),
    cs.freeze.lookup k = (cs.lookup k).map TreeChild.freeze
  | .nil, k => rfl
  | .cons k0 c rest, k => by
      show (Children.cons k0 c.freeze rest.freeze).lookup k = _
      unfold Children.lookup
      by_cases h : k0 = k
      · simp [h]
      · simp [h, children_freeze_lookup rest k]

theorem freeze_get_value_with_source (n : ConfigNode) (lay : Option String) :
    (n.freeze).get_value_with_source lay = n.get_value_with_source lay := rfl

theorem get_value_freeze_fst (n : ConfigNode) (lay : Option String) :
    ((n.freeze).get_value lay).1 = (n.get_value lay).1 := by
  unfold ConfigNode.get_value
  rw [freeze_get_value_with_source]
  cases n.get_value_with_source lay <;> rfl

theorem get_value_snd_frozen (n : ConfigNode) (lay : Option String) :
    ((n.get_value lay).2).frozen = n.frozen := by
  unfold ConfigNode.get_value
  cases n.get_value_with_source lay <;> rfl

theorem get_value_snd_accessed_mono (n : ConfigNode) (lay : Option String)
    (h : n.accessed = true) : ((n.get_value lay).2).accessed = true := by
  unfold ConfigNode.get_value
  cases n.get_value_with_source lay <;> simp [h]

theorem read_path_freeze_fst : ∀ (t : LayeredConfigTree) (p : List String)
    (lay : Option String),
    ((t.freeze).read_path p lay).1 = (t.read_path p lay).1
  | .mk ls nm fz cs, [], lay => rfl
  | .mk ls nm fz cs, [k], lay => by
      rw [freeze_children_eq]
      show (LayeredConfigTree.read_path
        (LayeredConfigTree.mk ls nm true cs.freeze) [k] lay).1
        = (LayeredConfigTree.read_path
            (LayeredConfigTree.mk ls nm fz cs) [k] lay).1
      unfold LayeredConfigTree.read_path
      simp only [LayeredConfigTree.children]
      rw [children_freeze_lookup]
      cases hlk : cs.lookup k with
      | none => rfl
      | some c =>
          cases c with
          | tree sub => rfl
          | node n =>
              simp only [Option.map_some', TreeChild.freeze]
              cases hgv : n.get_value lay with
              | mk r n2 =>
                  cases hgvf : (n.freeze).get_value lay with
                  | mk r2 n3 =>
                      have hfst : r2 = r := by
                        have h0 := get_value_freeze_fst n lay
                        rw [hgv, hgvf] at h0
                        exact h0
                      rw [hfst]
                      cases r <;> rfl
  | .mk ls nm fz cs, k :: k2 :: rest, lay => by
      rw [freeze_children_eq]
      show (LayeredConfigTree.read_path
        (LayeredConfigTree.mk ls nm true cs.freeze) (k :: k2 :: rest) lay).1
        = (LayeredConfigTree.read_path
            (LayeredConfigTree.mk ls nm fz cs) (k :: k2 :: rest) lay).1
      unfold LayeredConfigTree.read_path
      simp only [LayeredConfigTree.children]
      rw [children_freeze_lookup]
      cases hlk : cs.lookup k with
      | none => rfl
      | some c =>
          cases c with
          | node n => rfl
          | tree sub =>
              simp only [Option.map_some', TreeChild.freeze]
              exact read_path_freeze_fst sub (k2 :: rest) lay

theorem all_frozen_frozen : ∀ {t : LayeredConfigTree},
    t.all_frozen = true → t.frozen = true := by
  intro t h
  cases t with
  | mk ls nm fz cs =>
      simp only [LayeredConfigTree.all_frozen, Bool.and_eq_true] at h
      exact h.1

theorem all_frozen_children : ∀ {t : LayeredConfigTree},
    t.all_frozen = true → t.children.all_frozen = true := by
  intro t h
  cases t with
  | mk ls nm fz cs =>
      simp only [LayeredConfigTree.all_frozen, Bool.and_eq_true] at h
      exact h.2

theorem lookup_all_frozen : ∀ (cs : Children) (k : String) (c : TreeChild),
    cs.all_frozen = true → cs.lookup k = some c → c.all_frozen = true
  | .nil, k, c => by intro _ h; cases h
  | .cons k0 c0 rest, k, c => by
      intro hall hlk
      simp only [Children.all_frozen, Bool.and_eq_true] at hall
      unfold Children.lookup at hlk
      by_cases h : k0 = k
      · rw [if_pos h] at hlk
        cases hlk
        exact hall.1
      · rw [if_neg h] at hlk
        exact lookup_all_frozen rest k c hall.2 hlk

theorem store_all_frozen : ∀ (cs : Children) (k : String) (c : TreeChild),
    cs.all_frozen = true → c.all_frozen = true →
    (cs.store k c).all_frozen = true
  | .nil, k, c => by
      intro _ hc
      simp [Children.store, Children.all_frozen, hc]
  | .cons k0 c0 rest, k, c => by
      intro hall hc
      simp only [Children.all_frozen, Bool.and_eq_true] at hall
      unfold Children.store
      by_cases h : k0 = k
      · simp [h, Children.all_frozen, hc, hall.2]
      · simp [h, Children.all_frozen, hall.1,
          store_all_frozen rest k c hall.2 hc]

theorem update_frozen_error (t : LayeredConfigTree) (h : t.frozen = true)
    (m : RawMap) (lay src : Option String) :
    t.update m lay src = .error (.configurationError
      ("Frozen LayeredConfigTree " ++ t.name
        ++ " does not support update.")) := by
  unfold LayeredConfigTree.update
  simp [h]

theorem set_item_all_frozen_not_ok (t : LayeredConfigTree) (k v : String)
    (h : t.all_frozen = true) : (t.set_item k v).isOk = false := by
  have hcs := all_frozen_children h
  unfold LayeredConfigTree.set_item
  cases hlk : t.children.lookup k with
  | none => rfl
  | some c =>
      simp only [Option.isSome_some, if_true]
      unfold LayeredConfigTree.set_with_metadata
      rw [hlk]
      cases c with
      | tree sub => rfl
      | node n =>
          have hnf : n.frozen = true := lookup_all_frozen t.children k _ hcs hlk
          have hupd : n.update v none none = .error (.configurationError
              ("Frozen ConfigNode " ++ n.name
                ++ " does not support update.")) := by
            unfold ConfigNode.update
            simp [hnf]
          simp [hupd, Except.map, Except.isOk, Except.toBool]

theorem read_path_all_frozen : ∀ (t : LayeredConfigTree) (p : List String)
    (lay : Option String), t.all_frozen = true →
    ((t.read_path p lay).2).all_frozen = true
  | t, [], lay => fun h => h
  | t, [k], lay => by
      intro h
      show ((t.read_path [k] lay).2).all_frozen = true
      unfold LayeredConfigTree.read_path
      cases hlk : t.children.lookup k with
      | none => exact h
      | some c =>
          cases c with
          | tree sub => exact h
          | node n =>
              have hnf : n.frozen = true :=
                lookup_all_frozen t.children k _ (all_frozen_children h) hlk
              show (match n.get_value lay with
                | (.ok v, n') => (Except.ok v, t.with_child k (TreeChild.node n'))
                | (.error e, _) => (Except.error e, t)).2.all_frozen = true
              cases hgv : n.get_value lay with
              | mk r n2 =>
                  have hn2 : n2.frozen = true := by
                    have h0 := get_value_snd_frozen n lay
                    rw [hgv] at h0
                    have h1 : n2.frozen = n.frozen := h0
                    exact h1.trans hnf
                  cases r with
                  | error e => exact h
                  | ok v' =>
                      show (t.with_child k (.node n2)).all_frozen = true
                      cases t with
                      | mk ls nm fz cs =>
                          simp only [LayeredConfigTree.all_frozen,
                            Bool.and_eq_true] at h
                          unfold LayeredConfigTree.with_child
                          simp only [LayeredConfigTree.all_frozen,
                            LayeredConfigTree.children,
                            LayeredConfigTree.frozen, Bool.and_eq_true]
                          exact ⟨h.1, store_all_frozen cs k _ h.2 hn2⟩
  | t, k :: k2 :: rest, lay => by
      intro h
      show ((t.read_path (k :: k2 :: rest) lay).2).all_frozen = true
      unfold LayeredConfigTree.read_path
      cases hlk : t.children.lookup k with
      | none => exact h
      | some c =>
          cases c with
          | node n => exact h
          | tree sub =>
              have hsub : sub.all_frozen = true :=
                lookup_all_frozen t.children k _ (all_frozen_children h) hlk
              have hrec := read_path_all_frozen sub (k2 :: rest) lay hsub
              show ((sub.read_path (k2 :: rest) lay).1,
                t.with_child k
                  (.tree (sub.read_path (k2 :: rest) lay).2)).2.all_frozen
                = true
              show (t.with_child k
                (.tree (sub.read_path (k2 :: rest) lay).2)).all_frozen = true
              cases t with
              | mk ls nm fz cs =>
                  simp only [LayeredConfigTree.all_frozen,
                    Bool.and_eq_true] at h
                  unfold LayeredConfigTree.with_child
                  simp only [LayeredConfigTree.all_frozen,
                    LayeredConfigTree.children, LayeredConfigTree.frozen,
                    Bool.and_eq_true]
                  exact ⟨h.1, store_all_frozen cs k _ h.2 hrec⟩

theorem apply_op_all_frozen (t : LayeredConfigTree) (op : Op)
    (h : t.all_frozen = true) : (t.apply_op op).all_frozen = true := by
  cases op with
  | update m lay src =>
      show (match t.update m lay src with
        | .ok t' => t'
        | .error _ => t).all_frozen = true
      rw [update_frozen_error t (all_frozen_frozen h)]
      exact h
  | assign k v =>
      show (match t.set_item k v with
        | .ok t' => t'
        | .error _ => t).all_frozen = true
      cases hs : t.set_item k v with
      | ok t' =>
          have := set_item_all_frozen_not_ok t k v h
          rw [hs] at this
          cases this
      | error e => exact h
  | read p lay => exact read_path_all_frozen t p lay h
  | freeze => exact tree_freeze_all_frozen t

theorem apply_ops_all_frozen (ops : List Op) : ∀ (t : LayeredConfigTree),
    t.all_frozen = true → (t.apply_ops ops).all_frozen = true := by
  induction ops with
  | nil => intro t h; exact h
  | cons op ops ih =>
      intro t h
      exact ih (t.apply_op op) (apply_op_all_frozen t op h)

/-- C5: freezing a tree recursively freezes every descendant cell and
subtree; afterwards `update` always fails with the frozen
`ConfigurationError`, bare assignment never succeeds (on a key holding a
cell it fails with the cell's frozen error), every read of any key path
returns exactly what it returned before freezing, and no sequence of
further operations ever unfreezes anything. -/
theorem C5_freeze_recursive_and_final (t : LayeredConfigTree) :
    t.freeze.all_frozen = true
    ∧ (∀ m lay src, t.freeze.update m lay src = .error (.configurationError
        ("Frozen LayeredConfigTree " ++ t.name ++ " does not support update.")))
    ∧ (∀ k v n, t.children.lookup k = some (.node n) →
        t.freeze.set_item k v = .error (.configurationError
          ("Frozen ConfigNode " ++ n.name ++ " does not support update.")))
    ∧ (∀ k v, (t.freeze.set_item k v).isOk = false)
    ∧ (∀ p lay, (t.freeze.read_path p lay).1 = (t.read_path p lay).1)
    ∧ (∀ ops, (t.freeze.apply_ops ops).all_frozen = true) := by
  have hall := tree_freeze_all_frozen t
  refine ⟨hall, ?_, ?_, ?_, ?_, ?_⟩
  · intro m lay src
    rw [update_frozen_error _ (all_frozen_frozen hall), freeze_name]
  · intro k v n hk
    have hfl : (t.freeze).children.lookup k = some (.node n.freeze) := by
      cases t with
      | mk ls nm fz cs =>
          rw [freeze_children_eq]
          simp only [LayeredConfigTree.children] at hk ⊢
          rw [children_freeze_lookup, hk]
          rfl
    have hupd : (n.freeze).update v none none = .error (.configurationError
        ("Frozen ConfigNode " ++ n.name ++ " does not support update.")) := by
      unfold ConfigNode.update
      simp [ConfigNode.freeze]
    unfold LayeredConfigTree.set_item
    rw [hfl]
    simp only [Option.isSome_some, if_true]
    unfold LayeredConfigTree.set_with_metadata
    rw [hfl]
    simp [hupd, Except.map]
  · intro k v
    exact set_item_all_frozen_not_ok _ k v hall
  · intro p lay
    exact read_path_freeze_fst t p lay
  · intro ops
    exact apply_ops_all_frozen ops _ hall

/-- C5 witness: a one-cell tree — after `freeze`, everything is frozen,
update fails with the frozen error, bare assignment of the existing key
fails with the cell's frozen error, and the read still resolves to the
pre-freeze value. -/
theorem C5_freeze_recursive_and_final_witness :
    (LayeredConfigTree.mk ["base"] "cfg" false
      (.cons "key" (.node (ConfigNode.mk ["base"] "cfg.key"
        [("base", (none, "v"))] false false)) .nil)).freeze.all_frozen = true
    ∧ (LayeredConfigTree.mk ["base"] "cfg" false
        (.cons "key" (.node (ConfigNode.mk ["base"] "cfg.key"
          [("base", (none, "v"))] false false)) .nil)).freeze.set_item
      "key" "x"
      = .error (.configurationError
          "Frozen ConfigNode cfg.key does not support update.")
    ∧ ((LayeredConfigTree.mk ["base"] "cfg" false
        (.cons "key" (.node (ConfigNode.mk ["base"] "cfg.key"
          [("base", (none, "v"))] false false)) .nil)).freeze.read_path
        ["key"] none).1
      = ((LayeredConfigTree.mk ["base"] "cfg" false
        (.cons "key" (.node (ConfigNode.mk ["base"] "cfg.key"
          [("base", (none, "v"))] false false)) .nil)).read_path
        ["key"] none).1 :=
  have h := C5_freeze_recursive_and_final
    (LayeredConfigTree.mk ["base"] "cfg" false
      (.cons "key" (.node (ConfigNode.mk ["base"] "cfg.key"
        [("base", (none, "v"))] false false)) .nil))
  ⟨h.1,
   h.2.2.1 "key" "x"
     (ConfigNode.mk ["base"] "cfg.key" [("base", (none, "v"))] false false)
     (by decide),
   h.2.2.2.2.1 ["key"] none⟩

theorem lookup_store : ∀ (cs : Children) (k : String) (c : TreeChild)
    (k' : String),
    (cs.store k c).lookup k' = if k' = k then some c else cs.lookup k'
  | .nil, k, c, k' => by
      unfold Children.store Children.lookup
      by_cases h : k = k'
      · rw [if_pos h, if_pos h.symm]
      · rw [if_neg h, if_neg (fun e => h e.symm)]
        rfl
  | .cons k0 c0 rest, k, c, k' => by
      unfold Children.store
      by_cases h0 : k0 = k
      · rw [if_pos h0]
        unfold Children.lookup
        by_cases h1 : k0 = k'
        · rw [if_pos h1, if_pos (h1.symm.trans h0)]
        · rw [if_neg h1, if_neg h1]
          by_cases h2 : k' = k
          · exact absurd (h0.trans h2.symm) h1
          · rw [if_neg h2]
      · rw [if_neg h0]
        unfold Children.lookup
        by_cases h1 : k0 = k'
        · rw [if_pos h1, if_pos h1]
          have : ¬ k' = k := fun e => h0 (h1.trans e)
          rw [if_neg this]
        · rw [if_neg h1, if_neg h1, lookup_store rest k c k']

theorem mem_keys_store : ∀ (cs : Children) (k : String) (c : TreeChild)
    (k' : String),
    k' ∈ (cs.store k c).keys ↔ k' ∈ cs.keys ∨ k' = k
  | .nil, k, c, k' => by
      unfold Children.store
      simp [Children.keys]
  | .cons k0 c0 rest, k, c, k' => by
      unfold Children.store
      by_cases h0 : k0 = k
      · rw [if_pos h0]
        subst h0
        simp [Children.keys]
        intro h
        exact Or.inl h
      · rw [if_neg h0]
        simp [Children.keys, mem_keys_store rest k c k']
        rw [or_assoc]

theorem keys_nodup_store : ∀ (cs : Children) (k : String) (c : TreeChild),
    keys_nodup cs.keys = true → keys_nodup ((cs.store k c).keys) = true
  | .nil, k, c => by
      intro _
      unfold Children.store
      simp [Children.keys, keys_nodup]
  | .cons k0 c0 rest, k, c => by
      intro hnd
      simp only [Children.keys, keys_nodup, Bool.and_eq_true,
        Bool.not_eq_true', decide_eq_false_iff_not] at hnd
      unfold Children.store
      by_cases h0 : k0 = k
      · rw [if_pos h0]
        simp [Children.keys, keys_nodup, hnd.1, hnd.2]
      · rw [if_neg h0]
        simp only [Children.keys, keys_nodup, Bool.and_eq_true,
          Bool.not_eq_true', decide_eq_false_iff_not]
        refine ⟨?_, keys_nodup_store rest k c hnd.2⟩
        rw [mem_keys_store]
        rintro (h | h)
        · exact hnd.1 h
        · exact h0 h

theorem join_path_cons (k : String) (p : List String) (hp : p ≠ []) :
    join_path (k :: p) = k ++ "." ++ join_path p := by
  cases p with
  | nil => contradiction
  | cons a rest => rfl

mutual
theorem unused_paths_tree_ne_nil : ∀ (t : LayeredConfigTree),
    ∀ p ∈ t.unused_paths, p ≠ []
  | .mk ls nm fz cs => unused_paths_children_ne_nil cs
theorem unused_paths_children_ne_nil : ∀ (cs : Children),
    ∀ p ∈ cs.unused_paths, p ≠ []
  | .nil => by intro p hp; cases hp
  | .cons k (.node n) rest => by
      intro p hp
      unfold Children.unused_paths at hp
      rcases List.mem_append.mp hp with h1 | h2
      · by_cases ha : n.accessed <;> simp [ha] at h1
        rw [h1]
        exact List.cons_ne_nil k []
      · exact unused_paths_children_ne_nil rest p h2
  | .cons k (.tree sub) rest => by
      intro p hp
      unfold Children.unused_paths at hp
      rcases List.mem_append.mp hp with h1 | h2
      · obtain ⟨q, _, hq⟩ := List.mem_map.mp h1
        rw [← hq]
        exact List.cons_ne_nil k q
      · exact unused_paths_children_ne_nil rest p h2
end

mutual
theorem unused_keys_eq_tree : ∀ (t : LayeredConfigTree),
    t.unused_keys = t.unused_paths.map join_path
  | .mk ls nm fz cs => unused_keys_eq_children cs
theorem unused_keys_eq_children : ∀ (cs : Children),
    cs.unused_keys = cs.unused_paths.map join_path
  | .nil => rfl
  | .cons k (.node n) rest => by
      unfold Children.unused_keys Children.unused_paths
      rw [List.map_append, unused_keys_eq_children rest]
      congr 1
      by_cases ha : n.accessed <;> simp [ha, join_path]
  | .cons k (.tree sub) rest => by
      unfold Children.unused_keys Children.unused_paths
      rw [List.map_append, unused_keys_eq_children rest,
        unused_keys_eq_tree sub, List.map_map, List.map_map]
      congr 1
      apply List.map_congr_left
      intro p hp
      have hne := unused_paths_tree_ne_nil sub p hp
      simp only [Function.comp]
      rw [join_path_cons k p hne]
end

mutual
theorem unused_paths_filter_tree : ∀ (t : LayeredConfigTree),
    t.unused_paths
      = (t.leaf_entries.filter fun e => !e.2.accessed).map Prod.fst
  | .mk ls nm fz cs => unused_paths_filter_children cs
theorem unused_paths_filter_children : ∀ (cs : Children),
    cs.unused_paths
      = (cs.leaf_entries.filter fun e => !e.2.accessed).map Prod.fst
  | .nil => rfl
  | .cons k (.node n) rest => by
      unfold Children.unused_paths Children.leaf_entries
      rw [List.filter_cons]
      by_cases ha : n.accessed <;>
        simp [ha, unused_paths_filter_children rest]
  | .cons k (.tree sub) rest => by
      unfold Children.unused_paths Children.leaf_entries
      rw [List.filter_append, List.map_append,
        unused_paths_filter_children rest, unused_paths_filter_tree sub]
      congr 1
      rw [List.filter_map (fun e : List String × ConfigNode => (k :: e.1, e.2))
        sub.leaf_entries]
      rw [List.map_map, List.map_map]
      rfl
end

theorem unused_paths_head : ∀ (cs : Children) (p : List String),
    p ∈ cs.unused_paths → ∃ k q, p = k :: q ∧ k ∈ cs.keys
  | .nil, p => by intro h; cases h
  | .cons k0 (.node n) rest, p => by
      intro hp
      unfold Children.unused_paths at hp
      rcases List.mem_append.mp hp with h1 | h2
      · by_cases ha : n.accessed <;> simp [ha] at h1
        exact ⟨k0, [], h1, by simp [Children.keys]⟩
      · obtain ⟨k, q, hpe, hk⟩ := unused_paths_head rest p h2
        exact ⟨k, q, hpe, by simp [Children.keys, hk]⟩
  | .cons k0 (.tree sub) rest, p => by
      intro hp
      unfold Children.unused_paths at hp
      rcases List.mem_append.mp hp with h1 | h2
      · obtain ⟨q, _, hq⟩ := List.mem_map.mp h1
        exact ⟨k0, q, hq.symm, by simp [Children.keys]⟩
      · obtain ⟨k, q, hpe, hk⟩ := unused_paths_head rest p h2
        exact ⟨k, q, hpe, by simp [Children.keys, hk]⟩

theorem wf_mk (ls : List String) (nm : String) (fz : Bool) (cs : Children) :
    (LayeredConfigTree.mk ls nm fz cs).wf
      = (keys_nodup cs.keys && cs.wf) := rfl

theorem lookup_wf : ∀ (cs : Children) (k : String) (c : TreeChild),
    cs.wf = true → cs.lookup k = some c → c.wf = true
  | .nil, k, c => by intro _ h; cases h
  | .cons k0 c0 rest, k, c => by
      intro hwf hlk
      simp only [Children.wf, Bool.and_eq_true] at hwf
      unfold Children.lookup at hlk
      by_cases h : k0 = k
      · rw [if_pos h] at hlk
        cases hlk
        exact hwf.1
      · rw [if_neg h] at hlk
        exact lookup_wf rest k c hwf.2 hlk

theorem node_unused_children : ∀ (cs : Children) (k : String) (n : ConfigNode),
    keys_nodup cs.keys = true → cs.lookup k = some (.node n) →
    n.accessed = true → [k] ∉ cs.unused_paths
  | .nil, k, n => by intro _ h _; cases h
  | .cons k0 c0 rest, k, n => by
      intro hnd hlk hacc hmem
      simp only [Children.keys, keys_nodup, Bool.and_eq_true,
        Bool.not_eq_true', decide_eq_false_iff_not] at hnd
      unfold Children.lookup at hlk
      by_cases h : k0 = k
      · rw [if_pos h] at hlk
        cases hlk
        subst h
        unfold Children.unused_paths at hmem
        rcases List.mem_append.mp hmem with h1 | h2
        · rw [hacc] at h1
          simp at h1
        · obtain ⟨k1, q1, hpe, hk1⟩ := unused_paths_head rest [k0] h2
          cases hpe
          exact hnd.1 hk1
      · rw [if_neg h] at hlk
        cases c0 with
        | node n0 =>
            unfold Children.unused_paths at hmem
            rcases List.mem_append.mp hmem with h1 | h2
            · by_cases ha : n0.accessed <;> simp [ha] at h1
              exact h (by cases h1; rfl)
            · exact node_unused_children rest k n hnd.2 hlk hacc h2
        | tree sub =>
            unfold Children.unused_paths at hmem
            rcases List.mem_append.mp hmem with h1 | h2
            · obtain ⟨q, _, hq⟩ := List.mem_map.mp h1
              cases hq
              exact h rfl
            · exact node_unused_children rest k n hnd.2 hlk hacc h2

theorem tree_unused_children : ∀ (cs : Children) (k : String)
    (sub : LayeredConfigTree) (q : List String),
    keys_nodup cs.keys = true → cs.lookup k = some (.tree sub) →
    q ∉ sub.unused_paths → (k :: q) ∉ cs.unused_paths
  | .nil, k, sub, q => by intro _ h _; cases h
  | .cons k0 c0 rest, k, sub, q => by
      intro hnd hlk hq hmem
      simp only [Children.keys, keys_nodup, Bool.and_eq_true,
        Bool.not_eq_true', decide_eq_false_iff_not] at hnd
      unfold Children.lookup at hlk
      by_cases h : k0 = k
      · rw [if_pos h] at hlk
        cases hlk
        subst h
        unfold Children.unused_paths at hmem
        rcases List.mem_append.mp hmem with h1 | h2
        · obtain ⟨q1, hq1, hq2⟩ := List.mem_map.mp h1
          have : q1 = q := by
            have := hq2
            injection this with _ h2
          rw [this] at hq1
          exact hq hq1
        · obtain ⟨k1, q1, hpe, hk1⟩ := unused_paths_head rest (k0 :: q) h2
          injection hpe with he _
          rw [← he] at hk1
          exact hnd.1 hk1
      · rw [if_neg h] at hlk
        cases c0 with
        | node n0 =>
            unfold Children.unused_paths at hmem
            rcases List.mem_append.mp hmem with h1 | h2
            · by_cases ha : n0.accessed <;> simp [ha] at h1
              exact h h1.1.symm
            · exact tree_unused_children rest k sub q hnd.2 hlk hq h2
        | tree sub0 =>
            unfold Children.unused_paths at hmem
            rcases List.mem_append.mp hmem with h1 | h2
            · obtain ⟨q1, _, hq1⟩ := List.mem_map.mp h1
              injection hq1 with he _
              exact h he
            · exact tree_unused_children rest k sub q hnd.2 hlk hq h2

theorem accessed_at_nil (t : LayeredConfigTree) :
    t.accessed_at [] = false := rfl

theorem accessed_not_unused : ∀ (t : LayeredConfigTree) (p : List String),
    t.wf = true → t.accessed_at p = true → p ∉ t.unused_paths
  | t, [] => by
      intro _ hacc
      rw [accessed_at_nil] at hacc
      cases hacc
  | .mk ls nm fz cs, [k] => by
      intro hwf hacc
      rw [wf_mk, Bool.and_eq_true] at hwf
      unfold LayeredConfigTree.accessed_at LayeredConfigTree.node_at at hacc
      simp only [LayeredConfigTree.children] at hacc
      cases hlk : cs.lookup k with
      | none => rw [hlk] at hacc; cases hacc
      | some c =>
          rw [hlk] at hacc
          cases c with
          | tree sub => cases hacc
          | node n =>
              simp only [Option.map_some', Option.getD_some] at hacc
              show [k] ∉ cs.unused_paths
              exact node_unused_children cs k n hwf.1 hlk hacc
  | .mk ls nm fz cs, k :: k2 :: rest => by
      intro hwf hacc
      rw [wf_mk, Bool.and_eq_true] at hwf
      unfold LayeredConfigTree.accessed_at LayeredConfigTree.node_at at hacc
      simp only [LayeredConfigTree.children] at hacc
      cases hlk : cs.lookup k with
      | none => rw [hlk] at hacc; cases hacc
      | some c =>
          rw [hlk] at hacc
          cases c with
          | node n => cases hacc
          | tree sub =>
              have hsubwf : sub.wf = true := lookup_wf cs k _ hwf.2 hlk
              have hsubacc : sub.accessed_at (k2 :: rest) = true := hacc
              have hnot := accessed_not_unused sub (k2 :: rest) hsubwf hsubacc
              show (k :: k2 :: rest) ∉ cs.unused_paths
              exact tree_unused_children cs k sub (k2 :: rest) hwf.1 hlk hnot

theorem children_with_child (t : LayeredConfigTree) (k : String)
    (c : TreeChild) :
    (t.with_child k c).children = t.children.store k c := by
  cases t
  rfl

theorem get_value_ok_accessed (n : ConfigNode) (lay : Option String)
    (v : String) (h : (n.get_value lay).1 = .ok v) :
    ((n.get_value lay).2).accessed = true := by
  unfold ConfigNode.get_value at h ⊢
  cases hg : n.get_value_with_source lay with
  | ok sv => rfl
  | error e => rw [hg] at h; cases h

theorem except_map_ok {α β ε : Type} {f : α → β} {e : Except ε α} {b : β}
    (h : Except.map f e = .ok b) : ∃ a, e = .ok a ∧ b = f a := by
  cases e with
  | ok a =>
      refine ⟨a, rfl, ?_⟩
      simp [Except.map] at h
      exact h.symm
  | error err => simp [Except.map] at h

theorem node_at_with_child_ne : ∀ (t : LayeredConfigTree) (k : String)
    (c : TreeChild) (k' : String) (rest : List String), k' ≠ k →
    (t.with_child k c).node_at (k' :: rest) = t.node_at (k' :: rest) := by
  intro t k c k' rest hne
  cases rest with
  | nil =>
      unfold LayeredConfigTree.node_at
      rw [children_with_child, lookup_store, if_neg hne]
  | cons r0 rr =>
      unfold LayeredConfigTree.node_at
      rw [children_with_child, lookup_store, if_neg hne]

theorem node_at_with_child_self_single (t : LayeredConfigTree) (k : String)
    (c : TreeChild) :
    (t.with_child k c).node_at [k]
      = match c with
        | .node n => some n
        | .tree _ => none := by
  conv_lhs => unfold LayeredConfigTree.node_at
  rw [children_with_child, lookup_store, if_pos rfl]
  cases c <;> rfl

theorem node_at_with_child_self_cons (t : LayeredConfigTree) (k : String)
    (c : TreeChild) (r0 : String) (rr : List String) :
    (t.with_child k c).node_at (k :: r0 :: rr)
      = match c with
        | .node _ => none
        | .tree sub => sub.node_at (r0 :: rr) := by
  conv_lhs => unfold LayeredConfigTree.node_at
  rw [children_with_child, lookup_store, if_pos rfl]
  cases c <;> rfl

theorem read_path_ok_accessed : ∀ (t : LayeredConfigTree) (p : List String)
    (lay : Option String) (v : String),
    (t.read_path p lay).1 = .ok v →
    ((t.read_path p lay).2).accessed_at p = true
  | t, [], lay, v => by intro h; cases h
  | t, [k], lay, v => by
      intro h
      unfold LayeredConfigTree.read_path at h ⊢
      cases hlk : t.children.lookup k with
      | none => rw [hlk] at h; cases h
      | some c =>
          rw [hlk] at h
          cases c with
          | tree sub => cases h
          | node n =>
              have h' : ((match n.get_value lay with
                  | (.ok v, n') =>
                      (Except.ok v, t.with_child k (TreeChild.node n'))
                  | (.error e, _) => (Except.error e, t)) :
                    Except ConfigError String × LayeredConfigTree).1
                  = .ok v := h
              show (match n.get_value lay with
                  | (.ok v, n') =>
                      (Except.ok v, t.with_child k (TreeChild.node n'))
                  | (.error e, _) => (Except.error e, t)).2.accessed_at [k]
                  = true
              cases hgv : n.get_value lay with
              | mk r n2 =>
                  rw [hgv] at h'
                  cases r with
                  | error e => cases h'
                  | ok v' =>
                      show (LayeredConfigTree.with_child t k
                        (.node n2)).accessed_at [k] = true
                      unfold LayeredConfigTree.accessed_at
                      rw [node_at_with_child_self_single]
                      have hacc : n2.accessed = true := by
                        have h0 := get_value_ok_accessed n lay v'
                          (by rw [hgv])
                        rw [hgv] at h0
                        exact h0
                      simp [hacc]
  | t, k :: k2 :: rest, lay, v => by
      intro h
      unfold LayeredConfigTree.read_path at h ⊢
      cases hlk : t.children.lookup k with
      | none => rw [hlk] at h; cases h
      | some c =>
          rw [hlk] at h
          cases c with
          | node n => cases h
          | tree sub =>
              have h' : (sub.read_path (k2 :: rest) lay).1 = .ok v := h
              have hrec := read_path_ok_accessed sub (k2 :: rest) lay v h'
              show (LayeredConfigTree.with_child t k
                (.tree (sub.read_path (k2 :: rest) lay).2)).accessed_at
                  (k :: k2 :: rest) = true
              unfold LayeredConfigTree.accessed_at
              rw [node_at_with_child_self_cons]
              exact hrec

theorem accessed_at_cons_nil (t : LayeredConfigTree) (k : String) :
    t.accessed_at [k] = match t.children.lookup k with
      | some (.node n) => n.accessed
      | _ => false := by
  unfold LayeredConfigTree.accessed_at LayeredConfigTree.node_at
  cases t.children.lookup k with
  | none => rfl
  | some c => cases c <;> rfl

theorem accessed_at_cons_cons (t : LayeredConfigTree) (k r0 : String)
    (rr : List String) :
    t.accessed_at (k :: r0 :: rr) = match t.children.lookup k with
      | some (.tree sub) => sub.accessed_at (r0 :: rr)
      | _ => false := by
  conv_lhs => unfold LayeredConfigTree.accessed_at LayeredConfigTree.node_at
  cases t.children.lookup k with
  | none => rfl
  | some c => cases c <;> rfl

theorem accessed_mono_store_fresh (t : LayeredConfigTree) (k : String)
    (c : TreeChild) (k' : String) (p : List String)
    (hlk : t.children.lookup k = none)
    (hacc : t.accessed_at (k' :: p) = true) :
    (t.with_child k c).accessed_at (k' :: p) = true := by
  cases p with
  | nil =>
      rw [accessed_at_cons_nil] at hacc ⊢
      rw [children_with_child, lookup_store]
      by_cases hk : k' = k
      · subst hk
        rw [hlk] at hacc
        cases hacc
      · rw [if_neg hk]
        exact hacc
  | cons r0 rr =>
      rw [accessed_at_cons_cons] at hacc ⊢
      rw [children_with_child, lookup_store]
      by_cases hk : k' = k
      · subst hk
        rw [hlk] at hacc
        cases hacc
      · rw [if_neg hk]
        exact hacc

theorem accessed_mono_store_node (t : LayeredConfigTree) (k : String)
    (n n' : ConfigNode) (hlk : t.children.lookup k = some (.node n))
    (hmono : n.accessed = true → n'.accessed = true)
    (k' : String) (p : List String)
    (hacc : t.accessed_at (k' :: p) = true) :
    (t.with_child k (.node n')).accessed_at (k' :: p) = true := by
  cases p with
  | nil =>
      rw [accessed_at_cons_nil] at hacc ⊢
      rw [children_with_child, lookup_store]
      by_cases hk : k' = k
      · subst hk
        rw [hlk] at hacc
        rw [if_pos rfl]
        exact hmono hacc
      · rw [if_neg hk]
        exact hacc
  | cons r0 rr =>
      rw [accessed_at_cons_cons] at hacc ⊢
      rw [children_with_child, lookup_store]
      by_cases hk : k' = k
      · subst hk
        rw [hlk] at hacc
        cases hacc
      · rw [if_neg hk]
        exact hacc

theorem accessed_mono_store_tree (t : LayeredConfigTree) (k : String)
    (sub sub' : LayeredConfigTree)
    (hlk : t.children.lookup k = some (.tree sub))
    (hmono : ∀ r0 rr, sub.accessed_at (r0 :: rr) = true →
      sub'.accessed_at (r0 :: rr) = true)
    (k' : String) (p : List String)
    (hacc : t.accessed_at (k' :: p) = true) :
    (t.with_child k (.tree sub')).accessed_at (k' :: p) = true := by
  cases p with
  | nil =>
      rw [accessed_at_cons_nil] at hacc ⊢
      rw [children_with_child, lookup_store]
      by_cases hk : k' = k
      · subst hk
        rw [hlk] at hacc
        cases hacc
      · rw [if_neg hk]
        exact hacc
  | cons r0 rr =>
      rw [accessed_at_cons_cons] at hacc ⊢
      rw [children_with_child, lookup_store]
      by_cases hk : k' = k
      · subst hk
        rw [hlk] at hacc
        rw [if_pos rfl]
        exact hmono r0 rr hacc
      · rw [if_neg hk]
        exact hacc

theorem set_with_metadata_accessed_mono (t : LayeredConfigTree) (k v : String)
    (lay src : Option String) (t' : LayeredConfigTree) (p : List String)
    (h : t.set_with_metadata k v lay src = .ok t')
    (hacc : t.accessed_at p = true) : t'.accessed_at p = true := by
  cases p with
  | nil => rw [accessed_at_nil] at hacc; cases hacc
  | cons k' rest =>
      unfold LayeredConfigTree.set_with_metadata at h
      cases hlk : t.children.lookup k with
      | none =>
          rw [hlk] at h
          obtain ⟨n', hupd, rfl⟩ := except_map_ok h
          exact accessed_mono_store_fresh t k _ k' rest hlk hacc
      | some c =>
          rw [hlk] at h
          cases c with
          | tree sub => cases h
          | node n =>
              obtain ⟨n', hupd, rfl⟩ := except_map_ok h
              refine accessed_mono_store_node t k n n' hlk ?_ k' rest hacc
              intro ha
              rw [(update_ok_fields hupd).2.2.1]
              exact ha

theorem set_item_accessed_mono (t : LayeredConfigTree) (k v : String)
    (t' : LayeredConfigTree) (p : List String)
    (h : t.set_item k v = .ok t')
    (hacc : t.accessed_at p = true) : t'.accessed_at p = true := by
  unfold LayeredConfigTree.set_item at h
  by_cases hk : (t.children.lookup k).isSome
  · rw [if_pos hk] at h
    exact set_with_metadata_accessed_mono t k v none none t' p h hacc
  · rw [if_neg hk] at h
    cases h

mutual
theorem update_entries_accessed_mono : ∀ (t : LayeredConfigTree) (m : RawMap)
    (lay src : Option String) (t' : LayeredConfigTree) (p : List String),
    t.update_entries m lay src = .ok t' → t.accessed_at p = true →
    t'.accessed_at p = true
  | t, .nil, lay, src, t', p => by
      intro h hacc
      unfold LayeredConfigTree.update_entries at h
      cases h
      exact hacc
  | t, .cons k v rest, lay, src, t', p => by
      intro h hacc
      unfold LayeredConfigTree.update_entries at h
      cases hu : t.update_one k v lay src with
      | error e => rw [hu] at h; cases h
      | ok t1 =>
          rw [hu] at h
          exact update_entries_accessed_mono t1 rest lay src t' p h
            (update_one_accessed_mono t k v lay src t1 p hu hacc)
termination_by structural t m lay src t' p => m
theorem update_one_accessed_mono : ∀ (t : LayeredConfigTree) (k : String)
    (v : RawValue) (lay src : Option String) (t' : LayeredConfigTree)
    (p : List String),
    t.update_one k v lay src = .ok t' → t.accessed_at p = true →
    t'.accessed_at p = true
  | t, k, .scalar s, lay, src, t', p => by
      intro h hacc
      unfold LayeredConfigTree.update_one at h
      exact set_with_metadata_accessed_mono t k s lay src t' p h hacc
  | t, k, .map m, lay, src, t', p => by
      intro h hacc
      unfold LayeredConfigTree.update_one at h
      cases p with
      | nil => rw [accessed_at_nil] at hacc; cases hacc
      | cons k' rest =>
          cases hlk : t.children.lookup k with
          | none =>
              rw [hlk] at h
              obtain ⟨sub', hsub, rfl⟩ := except_map_ok h
              exact accessed_mono_store_fresh t k _ k' rest hlk hacc
          | some c =>
              rw [hlk] at h
              cases c with
              | node n => cases h
              | tree sub =>
                  have h2 : (if sub.frozen = true then
                      (.error (.configurationError
                        ("Frozen LayeredConfigTree " ++ sub.name
                          ++ " does not support update.")) :
                        Except ConfigError LayeredConfigTree)
                    else Except.map
                      (fun sub' => t.with_child k (TreeChild.tree sub'))
                      (sub.update_entries m lay src)) = .ok t' := h
                  cases hf : sub.frozen with
                  | true => rw [hf] at h2; simp at h2
                  | false =>
                      rw [hf] at h2
                      simp only [Bool.false_eq_true, if_false] at h2
                      obtain ⟨sub', hsub, rfl⟩ := except_map_ok h2
                      refine accessed_mono_store_tree t k sub sub' hlk
                        ?_ k' rest hacc
                      intro r0 rr ha
                      exact update_entries_accessed_mono sub m lay src sub'
                        (r0 :: rr) hsub ha
termination_by structural t k v lay src t' p => v
end

theorem update_accessed_mono (t : LayeredConfigTree) (m : RawMap)
    (lay src : Option String) (t' : LayeredConfigTree) (p : List String)
    (h : t.update m lay src = .ok t')
    (hacc : t.accessed_at p = true) : t'.accessed_at p = true := by
  unfold LayeredConfigTree.update at h
  cases hf : t.frozen with
  | true => rw [hf] at h; simp at h
  | false =>
      rw [hf] at h
      simp only [Bool.false_eq_true, if_false] at h
      exact update_entries_accessed_mono t m lay src t' p h hacc

theorem read_path_accessed_mono : ∀ (t : LayeredConfigTree) (p : List String)
    (lay : Option String) (q : List String),
    t.accessed_at q = true → ((t.read_path p lay).2).accessed_at q = true
  | t, [], lay, q => fun hacc => hacc
  | t, [k], lay, q => by
      intro hacc
      unfold LayeredConfigTree.read_path
      cases hlk : t.children.lookup k with
      | none => exact hacc
      | some c =>
          cases c with
          | tree sub => exact hacc
          | node n =>
              show (match n.get_value lay with
                | (.ok v, n') =>
                    (Except.ok v, t.with_child k (TreeChild.node n'))
                | (.error e, _) =>
                    (Except.error e, t)).2.accessed_at q = true
              cases hgv : n.get_value lay with
              | mk r n2 =>
                  cases r with
                  | error e => exact hacc
                  | ok v =>
                      show (t.with_child k (.node n2)).accessed_at q = true
                      cases q with
                      | nil => rw [accessed_at_nil] at hacc; cases hacc
                      | cons k' rest =>
                          refine accessed_mono_store_node t k n n2 hlk
                            ?_ k' rest hacc
                          intro ha
                          have h0 := get_value_snd_accessed_mono n lay ha
                          rw [hgv] at h0
                          exact h0
  | t, k :: k2 :: rest, lay, q => by
      intro hacc
      unfold LayeredConfigTree.read_path
      cases hlk : t.children.lookup k with
      | none => exact hacc
      | some c =>
          cases c with
          | node n => exact hacc
          | tree sub =>
              show (t.with_child k
                (.tree (sub.read_path (k2 :: rest) lay).2)).accessed_at q
                = true
              cases q with
              | nil => rw [accessed_at_nil] at hacc; cases hacc
              | cons k' q0 =>
                  refine accessed_mono_store_tree t k sub
                    (sub.read_path (k2 :: rest) lay).2 hlk ?_ k' q0 hacc
                  intro r0 rr ha
                  exact read_path_accessed_mono sub (k2 :: rest) lay
                    (r0 :: rr) ha

theorem freeze_node_at : ∀ (t : LayeredConfigTree) (q : List String),
    (t.freeze).node_at q = (t.node_at q).map ConfigNode.freeze
  | t, [] => rfl
  | .mk ls nm fz cs, [k] => by
      rw [freeze_children_eq]
      unfold LayeredConfigTree.node_at
      simp only [LayeredConfigTree.children]
      rw [children_freeze_lookup]
      cases hlk : cs.lookup k with
      | none => rfl
      | some c => cases c <;> rfl
  | .mk ls nm fz cs, k :: k2 :: rest => by
      rw [freeze_children_eq]
      conv_lhs => unfold LayeredConfigTree.node_at
      conv_rhs => unfold LayeredConfigTree.node_at
      simp only [LayeredConfigTree.children]
      rw [children_freeze_lookup]
      cases hlk : cs.lookup k with
      | none => rfl
      | some c =>
          cases c with
          | node n => rfl
          | tree sub =>
              simp only [Option.map_some', TreeChild.freeze]
              exact freeze_node_at sub (k2 :: rest)

theorem freeze_accessed_at (t : LayeredConfigTree) (q : List String) :
    (t.freeze).accessed_at q = t.accessed_at q := by
  unfold LayeredConfigTree.accessed_at
  rw [freeze_node_at]
  cases t.node_at q <;> rfl

theorem apply_op_accessed_mono (t : LayeredConfigTree) (op : Op)
    (q : List String) (hacc : t.accessed_at q = true) :
    (t.apply_op op).accessed_at q = true := by
  cases op with
  | update m lay src =>
      show (match t.update m lay src with
        | .ok t' => t'
        | .error _ => t).accessed_at q = true
      cases hu : t.update m lay src with
      | ok t' => exact update_accessed_mono t m lay src t' q hu hacc
      | error e => exact hacc
  | assign k v =>
      show (match t.set_item k v with
        | .ok t' => t'
        | .error _ => t).accessed_at q = true
      cases hs : t.set_item k v with
      | ok t' => exact set_item_accessed_mono t k v t' q hs hacc
      | error e => exact hacc
  | read p lay => exact read_path_accessed_mono t p lay q hacc
  | freeze =>
      show (t.freeze).accessed_at q = true
      rw [freeze_accessed_at]
      exact hacc

theorem apply_ops_accessed_mono (ops : List Op) : ∀ (t : LayeredConfigTree)
    (q : List String), t.accessed_at q = true →
    (t.apply_ops ops).accessed_at q = true := by
  induction ops with
  | nil => intro t q h; exact h
  | cons op ops ih =>
      intro t q h
      exact ih (t.apply_op op) q (apply_op_accessed_mono t op q h)

theorem store_wf_children : ∀ (cs : Children) (k : String) (c : TreeChild),
    cs.wf = true → c.wf = true → (cs.store k c).wf = true
  | .nil, k, c => by
      intro _ hc
      simp [Children.store, Children.wf, TreeChild.wf, hc]
  | .cons k0 c0 rest, k, c => by
      intro hwf hc
      simp only [Children.wf, Bool.and_eq_true] at hwf
      unfold Children.store
      by_cases h : k0 = k
      · simp [h, Children.wf, hc, hwf.2]
      · simp [h, Children.wf, hwf.1, store_wf_children rest k c hwf.2 hc]

theorem with_child_wf (t : LayeredConfigTree) (k : String) (c : TreeChild)
    (hwf : t.wf = true) (hc : c.wf = true) : (t.with_child k c).wf = true := by
  cases t with
  | mk ls nm fz cs =>
      rw [wf_mk, Bool.and_eq_true] at hwf
      unfold LayeredConfigTree.with_child
      simp only [LayeredConfigTree.children, LayeredConfigTree.layers,
        LayeredConfigTree.name, LayeredConfigTree.frozen]
      rw [wf_mk, Bool.and_eq_true]
      exact ⟨keys_nodup_store cs k c hwf.1, store_wf_children cs k c hwf.2 hc⟩

theorem set_with_metadata_wf (t : LayeredConfigTree) (k v : String)
    (lay src : Option String) (t' : LayeredConfigTree)
    (h : t.set_with_metadata k v lay src = .ok t') (hwf : t.wf = true) :
    t'.wf = true := by
  unfold LayeredConfigTree.set_with_metadata at h
  cases hlk : t.children.lookup k with
  | none =>
      rw [hlk] at h
      obtain ⟨n', _, rfl⟩ := except_map_ok h
      exact with_child_wf t k _ hwf rfl
  | some c =>
      rw [hlk] at h
      cases c with
      | tree sub => cases h
      | node n =>
          obtain ⟨n', _, rfl⟩ := except_map_ok h
          exact with_child_wf t k _ hwf rfl

theorem set_item_wf (t : LayeredConfigTree) (k v : String)
    (t' : LayeredConfigTree) (h : t.set_item k v = .ok t')
    (hwf : t.wf = true) : t'.wf = true := by
  unfold LayeredConfigTree.set_item at h
  by_cases hk : (t.children.lookup k).isSome
  · rw [if_pos hk] at h
    exact set_with_metadata_wf t k v none none t' h hwf
  · rw [if_neg hk] at h
    cases h

mutual
theorem update_entries_wf : ∀ (t : LayeredConfigTree) (m : RawMap)
    (lay src : Option String) (t' : LayeredConfigTree),
    t.update_entries m lay src = .ok t' → t.wf = true → t'.wf = true
  | t, .nil, lay, src, t' => by
      intro h hwf
      unfold LayeredConfigTree.update_entries at h
      cases h
      exact hwf
  | t, .cons k v rest, lay, src, t' => by
      intro h hwf
      unfold LayeredConfigTree.update_entries at h
      cases hu : t.update_one k v lay src with
      | error e => rw [hu] at h; cases h
      | ok t1 =>
          rw [hu] at h
          exact update_entries_wf t1 rest lay src t' h
            (update_one_wf t k v lay src t1 hu hwf)
termination_by structural t m lay src t' => m
theorem update_one_wf : ∀ (t : LayeredConfigTree) (k : String) (v : RawValue)
    (lay src : Option String) (t' : LayeredConfigTree),
    t.update_one k v lay src = .ok t' → t.wf = true → t'.wf = true
  | t, k, .scalar s, lay, src, t' => by
      intro h hwf
      unfold LayeredConfigTree.update_one at h
      exact set_with_metadata_wf t k s lay src t' h hwf
  | t, k, .map m, lay, src, t' => by
      intro h hwf
      unfold LayeredConfigTree.update_one at h
      cases hlk : t.children.lookup k with
      | none =>
          rw [hlk] at h
          obtain ⟨sub', hsub, rfl⟩ := except_map_ok h
          refine with_child_wf t k _ hwf ?_
          show sub'.wf = true
          exact update_entries_wf _ m lay src sub' hsub rfl
      | some c =>
          rw [hlk] at h
          cases c with
          | node n => cases h
          | tree sub =>
              have h2 : (if sub.frozen = true then
                  (.error (.configurationError
                    ("Frozen LayeredConfigTree " ++ sub.name
                      ++ " does not support update.")) :
                    Except ConfigError LayeredConfigTree)
                else Except.map
                  (fun sub' => t.with_child k (TreeChild.tree sub'))
                  (sub.update_entries m lay src)) = .ok t' := h
              cases hf : sub.frozen with
              | true => rw [hf] at h2; simp at h2
              | false =>
                  rw [hf] at h2
                  simp only [Bool.false_eq_true, if_false] at h2
                  obtain ⟨sub', hsub, rfl⟩ := except_map_ok h2
                  have hsubwf : sub.wf = true := by
                    cases t with
                    | mk ls nm fz cs =>
                        rw [wf_mk, Bool.and_eq_true] at hwf
                        exact lookup_wf cs k _ hwf.2 hlk
                  refine with_child_wf t k _ hwf ?_
                  show sub'.wf = true
                  exact update_entries_wf sub m lay src sub' hsub hsubwf
termination_by structural t k v lay src t' => v
end

theorem update_wf (t : LayeredConfigTree) (m : RawMap)
    (lay src : Option String) (t' : LayeredConfigTree)
    (h : t.update m lay src = .ok t') (hwf : t.wf = true) : t'.wf = true := by
  unfold LayeredConfigTree.update at h
  cases hf : t.frozen with
  | true => rw [hf] at h; simp at h
  | false =>
      rw [hf] at h
      simp only [Bool.false_eq_true, if_false] at h
      exact update_entries_wf t m lay src t' h hwf

theorem read_path_wf : ∀ (t : LayeredConfigTree) (p : List String)
    (lay : Option String), t.wf = true → ((t.read_path p lay).2).wf = true
  | t, [], lay => fun h => h
  | t, [k], lay => by
      intro hwf
      unfold LayeredConfigTree.read_path
      cases hlk : t.children.lookup k with
      | none => exact hwf
      | some c =>
          cases c with
          | tree sub => exact hwf
          | node n =>
              show (match n.get_value lay with
                | (.ok v, n') =>
                    (Except.ok v, t.with_child k (TreeChild.node n'))
                | (.error e, _) =>
                    (Except.error e, t)).2.wf = true
              cases hgv : n.get_value lay with
              | mk r n2 =>
                  cases r with
                  | error e => exact hwf
                  | ok v =>
                      show (t.with_child k (.node n2)).wf = true
                      exact with_child_wf t k _ hwf rfl
  | t, k :: k2 :: rest, lay => by
      intro hwf
      unfold LayeredConfigTree.read_path
      cases hlk : t.children.lookup k with
      | none => exact hwf
      | some c =>
          cases c with
          | node n => exact hwf
          | tree sub =>
              have hsubwf : sub.wf = true := by
                cases t with
                | mk ls nm fz cs =>
                    rw [wf_mk, Bool.and_eq_true] at hwf
                    exact lookup_wf cs k _ hwf.2 hlk
              show (t.with_child k
                (.tree (sub.read_path (k2 :: rest) lay).2)).wf = true
              exact with_child_wf t k _ hwf
                (read_path_wf sub (k2 :: rest) lay hsubwf)

theorem keys_freeze : ∀ (cs : Children), cs.freeze.keys = cs.keys
  | .nil => rfl
  | .cons k c rest => by
      show (Children.cons k c.freeze rest.freeze).keys = _
      unfold Children.keys
      rw [keys_freeze rest]

mutual
theorem tree_freeze_wf : ∀ (t : LayeredConfigTree),
    t.wf = true → t.freeze.wf = true
  | .mk ls nm fz cs => by
      intro hwf
      rw [freeze_children_eq]
      rw [wf_mk, Bool.and_eq_true] at hwf ⊢
      rw [keys_freeze]
      exact ⟨hwf.1, children_freeze_wf cs hwf.2⟩
theorem children_freeze_wf : ∀ (cs : Children),
    cs.wf = true → cs.freeze.wf = true
  | .nil => fun _ => rfl
  | .cons k c rest => by
      intro hwf
      simp only [Children.wf, Bool.and_eq_true] at hwf
      show (Children.cons k c.freeze rest.freeze).wf = true
      simp only [Children.wf, Bool.and_eq_true]
      exact ⟨child_freeze_wf c hwf.1, children_freeze_wf rest hwf.2⟩
theorem child_freeze_wf : ∀ (c : TreeChild),
    c.wf = true → c.freeze.wf = true
  | .node n => fun _ => rfl
  | .tree t => fun h => tree_freeze_wf t h
end

theorem apply_op_wf (t : LayeredConfigTree) (op : Op) (hwf : t.wf = true) :
    (t.apply_op op).wf = true := by
  cases op with
  | update m lay src =>
      show (match t.update m lay src with
        | .ok t' => t'
        | .error _ => t).wf = true
      cases hu : t.update m lay src with
      | ok t' => exact update_wf t m lay src t' hu hwf
      | error e => exact hwf
  | assign k v =>
      show (match t.set_item k v with
        | .ok t' => t'
        | .error _ => t).wf = true
      cases hs : t.set_item k v with
      | ok t' => exact set_item_wf t k v t' hs hwf
      | error e => exact hwf
  | read p lay => exact read_path_wf t p lay hwf
  | freeze => exact tree_freeze_wf t hwf

theorem apply_ops_wf (ops : List Op) : ∀ (t : LayeredConfigTree),
    t.wf = true → (t.apply_ops ops).wf = true := by
  induction ops with
  | nil => intro t h; exact h
  | cons op ops ih =>
      intro t h
      exact ih (t.apply_op op) (apply_op_wf t op h)

/-- C7: `unused_keys` is the depth-first list of dot-joined paths of
exactly those leaf cells whose accessed flag is false (it dot-joins
`unused_paths`, which is precisely the depth-first leaf entries filtered
to the unaccessed ones); and once a key path has been successfully read,
that path never appears in `unused_paths` again, no matter what sequence
of updates, assignments, reads and freezes follows. -/
theorem C7_unused_keys_exact_and_monotone (t : LayeredConfigTree) :
    (t.unused_keys = t.unused_paths.map join_path
      ∧ t.unused_paths
          = (t.leaf_entries.filter fun e => !e.2.accessed).map Prod.fst)
    ∧ ∀ p lay v, t.wf = true → (t.read_path p lay).1 = .ok v →
        ∀ ops, p ∉ (((t.read_path p lay).2).apply_ops ops).unused_paths := by
  constructor
  · exact ⟨unused_keys_eq_tree t, unused_paths_filter_tree t⟩
  · intro p lay v hwf hok ops
    have h1 := read_path_ok_accessed t p lay v hok
    have hwf1 := read_path_wf t p lay hwf
    have h2 := apply_ops_accessed_mono ops _ p h1
    have hwf2 := apply_ops_wf ops _ hwf1
    exact accessed_not_unused _ p hwf2 h2

/-- C7 witness: the `test_unused_keys` tree — after reading
`test_key.test_key2`, that path stays out of the unused set even after a
further update and another read. -/
theorem C7_unused_keys_exact_and_monotone_witness :
    ["test_key", "test_key2"] ∉
      ((((LayeredConfigTree.mk ["base"] "" false
        (.cons "test_key" (.tree (LayeredConfigTree.mk ["base"] "test_key"
          false
          (.cons "test_key2" (.node (ConfigNode.mk ["base"]
            "test_key.test_key2" [("base", (none, "test_value"))]
            false false))
          (.cons "test_key3" (.node (ConfigNode.mk ["base"]
            "test_key.test_key3" [("base", (none, "test_value2"))]
            false false)) .nil)))) .nil)).read_path
        ["test_key", "test_key2"] none).2).apply_ops
        [Op.update (.cons "new_key" (.scalar "nv") .nil) none none,
          Op.read ["test_key", "test_key3"] none]).unused_paths :=
  (C7_unused_keys_exact_and_monotone
    (LayeredConfigTree.mk ["base"] "" false
      (.cons "test_key" (.tree (LayeredConfigTree.mk ["base"] "test_key"
        false
        (.cons "test_key2" (.node (ConfigNode.mk ["base"]
          "test_key.test_key2" [("base", (none, "test_value"))]
          false false))
        (.cons "test_key3" (.node (ConfigNode.mk ["base"]
          "test_key.test_key3" [("base", (none, "test_value2"))]
          false false)) .nil)))) .nil))).2
    ["test_key", "test_key2"] none "test_value" (by decide) (by decide)
    [Op.update (.cons "new_key" (.scalar "nv") .nil) none none,
      Op.read ["test_key", "test_key3"] none]
